import Mathlib

/-!
Shallow embedding of the wolf-sheep predator-prey model
(`mesa/examples/advanced/wolf_sheep/agents.py`).

The world holds the live animals, the grass patches, the pending regrowth
events of the delayed-event scheduler, and the current tick.  Randomness is
an explicit stream: `random.random()` reads the next rational from the
`floats` stream and `random.choice` / `select_random_cell` reads the next
natural from the `nats` stream, so every operation is a pure function of the
state and the stream position.  Energies are rationals (the source halves
them on reproduction).  The grid topology is a parameter `nb : Nat → List Nat`
mapping a cell id to its neighborhood.  Fallible operations (the sheep's
`next(...)` patch lookup, `random.choice` on an empty collection) return
`Option`.
-/

namespace WolfSheep

/-- Animal variant: the concrete class of an animal (`Sheep` or `Wolf`). -/
inductive AnimalKind where
  | sheep : AnimalKind
  | wolf : AnimalKind
deriving DecidableEq, Repr

/-- State of one `Animal` instance: identity, class, `energy`, `p_reproduce`,
`energy_from_food` and the id of its current cell. -/
structure AnimalState where
  id : Nat
  kind : AnimalKind
  energy : ℚ
  pReproduce : ℚ
  energyFromFood : ℚ
  cell : Nat
deriving DecidableEq, Repr

/-- State of one `GrassPatch` instance: identity, the `_fully_grown` flag,
`grass_regrowth_time` and the id of its (fixed) cell. -/
structure GrassPatchState where
  id : Nat
  fullyGrown : Bool
  grassRegrowthTime : Nat
  cell : Nat
deriving DecidableEq, Repr

/-- A pending scheduler event: at tick `due`, set patch `pid`'s
`fully_grown` to `True` (the only mutation this model ever schedules). -/
structure Event where
  due : Nat
  pid : Nat
deriving DecidableEq, Repr

/-- The whole simulation state: current tick, live animals, grass patches,
pending scheduler events (in insertion order) and the next fresh agent id. -/
structure World where
  time : Nat
  animals : List AnimalState
  patches : List GrassPatchState
  events : List Event
  nextId : Nat
deriving Repr

/-- The seeded random source: a stream of uniform rationals in `[0,1)` for
`random.random()` and a stream of naturals for uniform index choices, with
the current read positions. -/
structure RNG where
  floats : Nat → ℚ
  nats : Nat → Nat
  fidx : Nat
  nidx : Nat

/-- Draw the next uniform rational (`random.random()`). -/
def RNG.nextFloat (r : RNG) : ℚ × RNG :=
  (r.floats r.fidx, { r with fidx := r.fidx + 1 })

/-- Draw the next natural used as a uniform index. -/
def RNG.nextNat (r : RNG) : Nat × RNG :=
  (r.nats r.nidx, { r with nidx := r.nidx + 1 })

/-- `random.choice` on a list: a uniform index draw; fails on an empty
list (`IndexError` / `EmptySelectionError`). -/
def choice {α : Type} (r : RNG) (l : List α) : Option (α × RNG) :=
  let k := (r.nextNat).1
  (l[k % l.length]?).map (fun a => (a, (r.nextNat).2))

/-- The animals occupying cell `c` (`cell.agents` restricted to animals). -/
def animalsAt (w : World) (c : Nat) : List AnimalState :=
  w.animals.filter (fun a => decide (a.cell = c))

/-- `any(isinstance(obj, Wolf) for obj in cell.agents)`. -/
def cellHasWolf (w : World) (c : Nat) : Bool :=
  (animalsAt w c).any (fun a => decide (a.kind = AnimalKind.wolf))

/-- `any(isinstance(obj, Sheep) for obj in cell.agents)`. -/
def cellHasSheep (w : World) (c : Nat) : Bool :=
  (animalsAt w c).any (fun a => decide (a.kind = AnimalKind.sheep))

/-- `any(isinstance(obj, GrassPatch) and obj.fully_grown for obj in cell.agents)`. -/
def cellHasGrownGrass (w : World) (c : Nat) : Bool :=
  w.patches.any (fun p => decide (p.cell = c) && p.fullyGrown)

/-- `next(obj for obj in self.cell.agents if isinstance(obj, GrassPatch))`:
the first grass patch at cell `c`, if any. -/
def findGrassAt (w : World) (c : Nat) : Option GrassPatchState :=
  w.patches.find? (fun p => decide (p.cell = c))

/-- Look an animal up by id. -/
def findAnimal (w : World) (aid : Nat) : Option AnimalState :=
  w.animals.find? (fun a => decide (a.id = aid))

/-- Look a grass patch up by id. -/
def findPatch (w : World) (pid : Nat) : Option GrassPatchState :=
  w.patches.find? (fun p => decide (p.id = pid))

/-- Mutate the animal with id `aid` in place. -/
def updateAnimal (w : World) (aid : Nat) (f : AnimalState → AnimalState) : World :=
  { w with animals := w.animals.map (fun a => if a.id = aid then f a else a) }

/-- The pending regrowth events that target patch `pid`. -/
def patchEvents (w : World) (pid : Nat) : List Event :=
  w.events.filter (fun e => decide (e.pid = pid))

/-- The `fully_grown` property setter (source lines 120-130): store the flag;
if the new value is `False` (grass was just eaten), call
`model.simulator.schedule_event_relative(setattr, grass_regrowth_time, ...)`,
i.e. append a pending event due `grass_regrowth_time` ticks from now that
will set the flag back to `True`.  Setting `True` schedules nothing. -/
def set_fully_grown (w : World) (pid : Nat) (v : Bool) : World :=
  match findPatch w pid with
  | none => w
  | some p =>
    let w1 : World :=
      { w with patches :=
          w.patches.map (fun q => if q.id = pid then { q with fullyGrown := v } else q) }
    if v then w1
    else { w1 with events := w1.events ++ [⟨w.time + p.grassRegrowthTime, pid⟩] }

/-- The `GrassPatch.__init__` constructor (source lines 132-150): the patch
starts fully grown iff `countdown == 0`, and otherwise one initial regrowth
event is scheduled `countdown` ticks from creation. -/
def GrassPatch.create (w : World) (countdown : Nat) (grassRegrowthTime : Nat) (c : Nat) : World :=
  let pid := w.nextId
  let p : GrassPatchState := ⟨pid, decide (countdown = 0), grassRegrowthTime, c⟩
  let w1 : World := { w with patches := w.patches ++ [p], nextId := w.nextId + 1 }
  if countdown = 0 then w1
  else { w1 with events := w1.events ++ [⟨w.time + countdown, pid⟩] }

/-- Stable insertion of an event into a list sorted by due time: among equal
due times the earlier-inserted event stays first. -/
def insertByDue (e : Event) : List Event → List Event
  | [] => [e]
  | f :: fs => if e.due ≤ f.due then e :: f :: fs else f :: insertByDue e fs

/-- Stable sort of events by due time (time-then-insertion order). -/
def sortByDue (l : List Event) : List Event :=
  l.foldr insertByDue []

/-- Modelled from the spec: `EventScheduler.fire_due` — the scheduler itself
is framework code not present in this repository.  Pops every pending event
whose due time is at most the current time and applies them in
time-then-insertion order; each fired event performs
`setattr(patch, "fully_grown", True)`, which runs the property setter with
`True`. -/
def fire_due (w : World) : World :=
  let dueEvs := sortByDue (w.events.filter (fun e => decide (e.due ≤ w.time)))
  let rest := w.events.filter (fun e => !(decide (e.due ≤ w.time)))
  dueEvs.foldl (fun acc e => set_fully_grown acc e.pid true) { w with events := rest }

/-- `Agent.remove`: the animal leaves the model (and hence every cell's
occupant set). -/
def Animal.remove (w : World) (aid : Nat) : World :=
  { w with animals := w.animals.filter (fun a => !(decide (a.id = aid))) }

/-- `Animal.spawn_offspring` (source lines 25-34): halve `self.energy`, then
create a new instance of the same class with the (already halved) energy,
the same `p_reproduce`, `energy_from_food` and cell. -/
def Animal.spawn_offspring (w : World) (aid : Nat) : World :=
  match findAnimal w aid with
  | none => w
  | some a =>
    let child : AnimalState :=
      ⟨w.nextId, a.kind, a.energy / 2, a.pReproduce, a.energyFromFood, a.cell⟩
    let w1 := updateAnimal w aid (fun b => { b with energy := b.energy / 2 })
    { w1 with animals := w1.animals ++ [child], nextId := w.nextId + 1 }

/-- `Sheep.feed` (source lines 59-66): find the grass patch at the current
cell — `next(...)` raises `StopIteration` (modelled as `none`) if the cell
has no patch; if the patch is fully grown, gain `energy_from_food` and set
the patch's `fully_grown` to `False`, else do nothing. -/
def Sheep.feed (w : World) (aid : Nat) : Option World :=
  match findAnimal w aid with
  | none => some w
  | some a =>
    match findGrassAt w a.cell with
    | none => none
    | some p =>
      if p.fullyGrown then
        some ( set_fully_grown
          (updateAnimal w aid (fun b => { b with energy := b.energy + b.energyFromFood }))
          p.id false)
      else some w

/-- `cells_without_wolves` in `Sheep.move`: the neighbor cells with no wolf. -/
def cellsWithoutWolves (nb : Nat → List Nat) (w : World) (c : Nat) : List Nat :=
  (nb c).filter (fun c2 => !(cellHasWolf w c2))

/-- `cells_with_grass` in `Sheep.move`: the wolf-free neighbor cells with a
fully grown grass patch. -/
def cellsWithGrass (nb : Nat → List Nat) (w : World) (c : Nat) : List Nat :=
  (cellsWithoutWolves nb w c).filter (fun c2 => cellHasGrownGrass w c2)

/-- `Sheep.move` (source lines 68-87): filter the neighborhood to cells
without wolves; if none, stay put; otherwise prefer the wolf-free cells with
fully grown grass, and pick a uniform random cell from the preferred set. -/
def Sheep.move (nb : Nat → List Nat) (w : World) (r : RNG) (aid : Nat) :
    Option (World × RNG) :=
  match findAnimal w aid with
  | none => some (w, r)
  | some a =>
    if (cellsWithoutWolves nb w a.cell).length = 0 then some (w, r)
    else
      let targetCells :=
        if (cellsWithGrass nb w a.cell).length > 0 then cellsWithGrass nb w a.cell
        else cellsWithoutWolves nb w a.cell
      (choice r targetCells).map
        (fun cr => (updateAnimal w aid (fun b => { b with cell := cr.1 }), cr.2))

/-- `[obj for obj in self.cell.agents if isinstance(obj, Sheep)]`: the sheep
occupying cell `c`. -/
def sheepAt (w : World) (c : Nat) : List AnimalState :=
  w.animals.filter (fun b => decide (b.cell = c) && decide (b.kind = AnimalKind.sheep))

/-- `Wolf.feed` (source lines 93-99): collect the sheep at the current cell;
if any, pick one uniformly at random, gain `energy_from_food`, and remove
the chosen sheep; if none, do nothing (no random draw is consumed). -/
def Wolf.feed (w : World) (r : RNG) (aid : Nat) : World × RNG :=
  match findAnimal w aid with
  | none => (w, r)
  | some a =>
    match choice r (sheepAt w a.cell) with
    | none => (w, r)
    | some sr =>
      let w1 := updateAnimal w aid (fun b => { b with energy := b.energy + b.energyFromFood })
      (Animal.remove w1 sr.1.id, sr.2)

/-- `cells_with_sheep` in `Wolf.move`: the neighbor cells holding a sheep. -/
def cellsWithSheep (nb : Nat → List Nat) (w : World) (c : Nat) : List Nat :=
  (nb c).filter (fun c2 => cellHasSheep w c2)

/-- `Wolf.move` (source lines 101-109): prefer neighbor cells containing at
least one sheep; if none, use the whole neighborhood; pick a uniform random
cell from the chosen set. -/
def Wolf.move (nb : Nat → List Nat) (w : World) (r : RNG) (aid : Nat) :
    Option (World × RNG) :=
  match findAnimal w aid with
  | none => some (w, r)
  | some a =>
    let targetCells :=
      if (cellsWithSheep nb w a.cell).length > 0 then cellsWithSheep nb w a.cell
      else nb a.cell
    (choice r targetCells).map
      (fun cr => (updateAnimal w aid (fun b => { b with cell := cr.1 }), cr.2))

/-- Variant dispatch for `self.move()`. -/
def Animal.move (nb : Nat → List Nat) (w : World) (r : RNG) (aid : Nat) :
    Option (World × RNG) :=
  match findAnimal w aid with
  | none => some (w, r)
  | some a =>
    match a.kind with
    | AnimalKind.sheep => Sheep.move nb w r aid
    | AnimalKind.wolf => Wolf.move nb w r aid

/-- Variant dispatch for `self.feed()`. -/
def Animal.feed (w : World) (r : RNG) (aid : Nat) : Option (World × RNG) :=
  match findAnimal w aid with
  | none => some (w, r)
  | some a =>
    match a.kind with
    | AnimalKind.sheep => (Sheep.feed w aid).map (fun w1 => (w1, r))
    | AnimalKind.wolf => some (Wolf.feed w r aid)

/-- `self.energy -= 1` (source line 44): the flat unconditional metabolism
cost. -/
def metabolize (w : World) (aid : Nat) : World :=
  updateAnimal w aid (fun a => { a with energy := a.energy - 1 })

/-- Source lines 49-53: if `self.energy < 0` remove the animal (the random
reproduction draw is never evaluated); otherwise draw
`self.random.random()` and spawn offspring when it is below `p_reproduce`. -/
def resolve (w : World) (r : RNG) (aid : Nat) : World × RNG :=
  match findAnimal w aid with
  | none => (w, r)
  | some a =>
    if a.energy < 0 then (Animal.remove w aid, r)
    else
      let ur := r.nextFloat
      if ur.1 < a.pReproduce then (Animal.spawn_offspring w aid, ur.2)
      else (w, ur.2)

/-- `Animal.step` (source lines 39-53): move, metabolize, feed, then
death-or-reproduction. -/
def Animal.step (nb : Nat → List Nat) (w : World) (r : RNG) (aid : Nat) :
    Option (World × RNG) :=
  (Animal.move nb w r aid).bind (fun p =>
    let w2 := metabolize p.1 aid
    (Animal.feed w2 p.2 aid).map (fun q => resolve q.1 q.2 aid))

/-- Fisher-Yates-style draw of a random activation order (modelled from the
spec: the activation shuffle lives in framework code not present in this
repository). -/
def shuffleGo (r : RNG) (l : List Nat) : Nat → List Nat × RNG
  | 0 => ([], r)
  | fuel + 1 =>
    match l with
    | [] => ([], r)
    | _ :: _ =>
      let k := (r.nextNat).1
      let i := k % l.length
      match l[i]? with
      | none => ([], (r.nextNat).2)
      | some x =>
        let rec' := shuffleGo ((r.nextNat).2) (l.eraseIdx i) fuel
        (x :: rec'.1, rec'.2)

/-- Draw a fresh random permutation of the given ids. -/
def shuffle (r : RNG) (l : List Nat) : List Nat × RNG :=
  shuffleGo r l l.length

/-- Step the agents of one tick in the given activation order; an id whose
agent has been removed mid-tick is skipped. -/
def stepAgents (nb : Nat → List Nat) : List Nat → World → RNG → Option (World × RNG)
  | [], w, r => some (w, r)
  | aid :: rest, w, r =>
    match findAnimal w aid with
    | none => stepAgents nb rest w r
    | some _ =>
      (Animal.step nb w r aid).bind (fun p => stepAgents nb rest p.1 p.2)

/-- Modelled from the spec: one tick of `SimulationClock` — advance time,
fire all due scheduler events, then step the live animals in a fresh random
activation order (the clock/driver is framework code not present in this
repository). -/
def tick (nb : Nat → List Nat) (w : World) (r : RNG) : Option (World × RNG) :=
  let w1 := fire_due { w with time := w.time + 1 }
  let or' := shuffle r (w1.animals.map (fun a => a.id))
  stepAgents nb or'.1 w1 or'.2

/-- Per-tick population counts exposed to reporting: live sheep, live
wolves, fully grown grass patches. -/
def counts (w : World) : Nat × Nat × Nat :=
  ((w.animals.filter (fun a => decide (a.kind = AnimalKind.sheep))).length,
   (w.animals.filter (fun a => decide (a.kind = AnimalKind.wolf))).length,
   (w.patches.filter (fun p => p.fullyGrown)).length)

/-- Run `n` ticks and collect the per-tick population counts. -/
def runCounts (nb : Nat → List Nat) (w : World) (r : RNG) : Nat → Option (List (Nat × Nat × Nat))
  | 0 => some []
  | n + 1 =>
    (tick nb w r).bind (fun p =>
      (runCounts nb p.1 p.2 n).map (fun cs => counts p.1 :: cs))

/-- Concrete instance of `spawn_offspring_energy_split`. -/
def cA : AnimalState := ⟨0, AnimalKind.sheep, 8, 1/25, 4, 0⟩

/-- A one-animal world used to instantiate the reproduction theorems. -/
def cW : World := ⟨0, [cA], [], [], 1⟩

/-- The grass-automaton invariant: patch ids are pairwise distinct and every
patch has positive regrowth time, no pending regrowth event while fully
grown, and exactly one pending regrowth event, due strictly in the future,
while not grown. -/
def Inv (w : World) : Prop :=
  (w.patches.map (fun p => p.id)).Nodup ∧
  ∀ pid p, findPatch w pid = some p →
    1 ≤ p.grassRegrowthTime ∧
    (p.fullyGrown = true → patchEvents w pid = []) ∧
    (p.fullyGrown = false → ∃ d, patchEvents w pid = [⟨d, pid⟩] ∧ w.time < d)

/-- The transitions that can touch the grass state during a run: `advance`
is one clock tick followed by firing the due events; `feed` is a sheep's
feeding step (the only in-core writer of `fully_grown = False`); `quiet`
covers every other operation of the model — moves, metabolism, wolf
feeding, reproduction, removal — all of which leave the clock, the patches
and the event queue untouched. -/
inductive GStep : World → World → Prop where
  | advance (w : World) : GStep w (fire_due { w with time := w.time + 1 })
  | feed (w w1 : World) (aid : Nat) (h : Sheep.feed w aid = some w1) : GStep w w1
  | quiet (w w1 : World) (ht : w1.time = w.time) (hpt : w1.patches = w.patches)
      (he : w1.events = w.events) : GStep w w1

/-- While the pending regrowth event of patch `pid` due at tick `d` has not
fired, the trace keeps: the invariant, a clock strictly before `d`, the
patch present and not grown, and that single pending event. -/
def TracksEvent (pid d : Nat) (w : World) : Prop :=
  Inv w ∧ w.time < d ∧
  (∃ q, findPatch w pid = some q ∧ q.fullyGrown = false) ∧
  patchEvents w pid = [⟨d, pid⟩]

/-- A sheep with `p_reproduce = 0` at cell 0. -/
def cSheep : AnimalState := ⟨0, AnimalKind.sheep, 8, 0, 4, 0⟩

/-- A wolf co-located with `cSheep`. -/
def cWolf : AnimalState := ⟨1, AnimalKind.wolf, 5, 0, 4, 0⟩

/-- A fully grown patch at cell 0 with regrowth time 3. -/
def cPatch : GrassPatchState := ⟨2, true, 3, 0⟩

/-- A concrete two-animal world with one grown patch. -/
def cW2 : World := ⟨0, [cSheep, cWolf], [cPatch], [], 3⟩

/-- A world whose only cell has no grass patch. -/
def cW3 : World := ⟨0, [cSheep], [], [], 3⟩

/-- A deterministic random source: every draw reads 0. -/
def cRng : RNG := ⟨fun _ => 0, fun _ => 0, 0, 0⟩

/-- A one-cell topology: every cell's only neighbor is cell 0. -/
def cnb0 : Nat → List Nat := fun _ => [0]

/-- The world `cW2` after the sheep's metabolism and feeding of tick 0. -/
def cW4 : World :=
  ⟨0, [{ cSheep with energy := cSheep.energy - 1 + cSheep.energyFromFood }, cWolf],
   [{ cPatch with fullyGrown := false }], [⟨3, 2⟩], 3⟩

/-- A wolf at cell 1 used by the movement witnesses. -/
def mWolf : AnimalState := ⟨1, AnimalKind.wolf, 5, 0, 4, 1⟩

/-- A fully grown patch at cell 2 used by the movement witnesses. -/
def mPatch : GrassPatchState := ⟨2, true, 3, 2⟩

/-- A three-cell world: sheep at cell 0, wolf at cell 1, grown grass at 2. -/
def cM : World := ⟨0, [cSheep, mWolf], [mPatch], [], 3⟩

/-- A concrete triangle topology on cells 0, 1, 2. -/
def cnb : Nat → List Nat :=
  fun c => if c = 0 then [1, 2] else if c = 1 then [0, 2] else [0, 1]

/-- An empty world used to witness creation and the invariant. -/
def gW : World := ⟨0, [], [], [], 0⟩

/-- A grown patch with id 1 at cell 0 and regrowth time 3. -/
def gPatch : GrassPatchState := ⟨1, true, 3, 0⟩

/-- A world with one sheep on one grown patch, about to feed. -/
def gF : World := ⟨0, [cSheep], [gPatch], [], 2⟩

/-- The world `gF` right after the sheep's feed consumed the patch. -/
def gW1 : World :=
  ⟨0, [{ cSheep with energy := cSheep.energy + cSheep.energyFromFood }],
   [{ gPatch with fullyGrown := false }], [⟨3, 1⟩], 2⟩

/-- A world with one not-grown patch and one pending regrowth event. -/
def cW5 : World := ⟨0, [], [{ cPatch with fullyGrown := false }], [⟨3, 2⟩], 3⟩

section ListHelpers

variable {α : Type}

/-- Updating the elements matching an id and then looking that id up finds
the updated first match. -/
theorem find_map_upd (idOf : α → Nat) (g : α → α) (pid : Nat)
    (hg : ∀ x, idOf (g x) = idOf x) (l : List α) :
    (l.map (fun x => if idOf x = pid then g x else x)).find?
        (fun x => decide (idOf x = pid))
      = (l.find? (fun x => decide (idOf x = pid))).map g := by
  induction l with
  | nil => rfl
  | cons a l ih =>
    rw [List.map_cons]
    by_cases h : idOf a = pid
    · rw [if_pos h, List.find?_cons_of_pos _ (by simp [hg, h]),
        List.find?_cons_of_pos _ (by simp [h]), Option.map_some']
    · rw [if_neg h, List.find?_cons_of_neg _ (by simp [h]),
        List.find?_cons_of_neg _ (by simp [h]), ih]

/-- Updating the elements matching one id leaves lookups of any other id
unchanged. -/
theorem find_map_upd_ne (idOf : α → Nat) (g : α → α) (pid qid : Nat)
    (hg : ∀ x, idOf (g x) = idOf x) (hne : qid ≠ pid) (l : List α) :
    (l.map (fun x => if idOf x = pid then g x else x)).find?
        (fun x => decide (idOf x = qid))
      = l.find? (fun x => decide (idOf x = qid)) := by
  induction l with
  | nil => rfl
  | cons a l ih =>
    rw [List.map_cons]
    by_cases h : idOf a = pid
    · have hq : ¬ idOf a = qid := fun hc => hne (hc.symm.trans h)
      rw [if_pos h, List.find?_cons_of_neg _ (by simp [hg, hq]),
        List.find?_cons_of_neg _ (by simp [hq]), ih]
    · by_cases hq : idOf a = qid
      · rw [if_neg h, List.find?_cons_of_pos _ (by simp [hq]),
          List.find?_cons_of_pos _ (by simp [hq])]
      · rw [if_neg h, List.find?_cons_of_neg _ (by simp [hq]),
          List.find?_cons_of_neg _ (by simp [hq]), ih]

/-- Removing every element with a given id makes lookups of that id fail. -/
theorem find_filter_ne_self (idOf : α → Nat) (aid : Nat) (l : List α) :
    (l.filter (fun x => !(decide (idOf x = aid)))).find?
        (fun x => decide (idOf x = aid)) = none := by
  rw [List.find?_eq_none]
  intro x hx
  rcases List.mem_filter.mp hx with ⟨_, hkeep⟩
  simpa using hkeep

/-- Removing every element with one id leaves lookups of any other id
unchanged. -/
theorem find_filter_ne_other (idOf : α → Nat) (aid qid : Nat) (hne : qid ≠ aid)
    (l : List α) :
    (l.filter (fun x => !(decide (idOf x = aid)))).find?
        (fun x => decide (idOf x = qid))
      = l.find? (fun x => decide (idOf x = qid)) := by
  induction l with
  | nil => rfl
  | cons a l ih =>
    by_cases h : idOf a = aid
    · have hq : ¬ idOf a = qid := fun hc => hne (hc.symm.trans h)
      rw [List.filter_cons_of_neg (by simp [h]),
        List.find?_cons_of_neg _ (by simp [hq]), ih]
    · by_cases hq : idOf a = qid
      · rw [List.filter_cons_of_pos (by simp [h]),
          List.find?_cons_of_pos _ (by simp [hq]),
          List.find?_cons_of_pos _ (by simp [hq])]
      · rw [List.filter_cons_of_pos (by simp [h]),
          List.find?_cons_of_neg _ (by simp [hq]),
          List.find?_cons_of_neg _ (by simp [hq]), ih]

/-- With pairwise distinct ids, looking up a member's id finds that member. -/
theorem find_id_of_mem (idOf : α → Nat) (l : List α)
    (hnd : (l.map idOf).Nodup) (p : α) (hm : p ∈ l) :
    l.find? (fun q => decide (idOf q = idOf p)) = some p := by
  induction l with
  | nil => cases hm
  | cons a l ih =>
    rcases List.mem_cons.mp hm with h | h
    · subst h; simp
    · have hnd' := hnd
      rw [List.map_cons, List.nodup_cons] at hnd'
      have hne : ¬ idOf a = idOf p := fun hc => hnd'.1 (hc ▸ List.mem_map_of_mem idOf h)
      simp [hne, ih hnd'.2 h]

end ListHelpers

/-- `updateAnimal` touches only the animal list. -/
theorem updateAnimal_patches (w : World) (aid : Nat) (f : AnimalState → AnimalState) :
    (updateAnimal w aid f).patches = w.patches := rfl

/-- `updateAnimal` touches only the animal list. -/
theorem updateAnimal_events (w : World) (aid : Nat) (f : AnimalState → AnimalState) :
    (updateAnimal w aid f).events = w.events := rfl

/-- `updateAnimal` touches only the animal list. -/
theorem updateAnimal_time (w : World) (aid : Nat) (f : AnimalState → AnimalState) :
    (updateAnimal w aid f).time = w.time := rfl

/-- The `fully_grown` setter never touches the animals. -/
theorem set_fully_grown_animals (w : World) (pid : Nat) (v : Bool) :
    ( set_fully_grown w pid v).animals = w.animals := by
  unfold set_fully_grown
  cases findPatch w pid with
  | none => rfl
  | some p => cases v <;> rfl

/-- The `fully_grown` setter never touches the clock. -/
theorem set_fully_grown_time (w : World) (pid : Nat) (v : Bool) :
    ( set_fully_grown w pid v).time = w.time := by
  unfold set_fully_grown
  cases findPatch w pid with
  | none => rfl
  | some p => cases v <;> rfl

/-- Looking up an animal id after `updateAnimal` of that id. -/
theorem findAnimal_updateAnimal (w : World) (aid : Nat) (f : AnimalState → AnimalState)
    (hf : ∀ a, (f a).id = a.id) :
    findAnimal (updateAnimal w aid f) aid = (findAnimal w aid).map f := by
  unfold findAnimal updateAnimal
  exact find_map_upd (fun a => a.id) f aid hf w.animals

/-- Looking up another animal id after `updateAnimal`. -/
theorem findAnimal_updateAnimal_ne (w : World) (aid qid : Nat)
    (f : AnimalState → AnimalState) (hf : ∀ a, (f a).id = a.id) (hne : qid ≠ aid) :
    findAnimal (updateAnimal w aid f) qid = findAnimal w qid := by
  unfold findAnimal updateAnimal
  exact find_map_upd_ne (fun a => a.id) f aid qid hf hne w.animals

/-- A removed animal is gone from the store. -/
theorem findAnimal_remove (w : World) (aid : Nat) :
    findAnimal (Animal.remove w aid) aid = none := by
  unfold findAnimal Animal.remove
  exact find_filter_ne_self (fun a => a.id) aid w.animals

/-- Removing one animal leaves every other lookup unchanged. -/
theorem findAnimal_remove_ne (w : World) (aid qid : Nat) (hne : qid ≠ aid) :
    findAnimal (Animal.remove w aid) qid = findAnimal w qid := by
  unfold findAnimal Animal.remove
  exact find_filter_ne_other (fun a => a.id) aid qid hne w.animals

/-- C2: for an animal with energy `E` that reproduces, immediately after
`spawn_offspring` the parent holds exactly `E/2`; the offspring (the newly
appended agent) is of the same class, at the same cell, with the same
`p_reproduce` and `energy_from_food`, and holds exactly `E/2`; the split
conserves energy exactly, with no rounding. -/
theorem spawn_offspring_energy_split (w : World) (aid : Nat) (a : AnimalState)
    (ha : findAnimal w aid = some a) :
    findAnimal (Animal.spawn_offspring w aid) aid = some { a with energy := a.energy / 2 } ∧
    (Animal.spawn_offspring w aid).animals.getLast? =
      some ⟨w.nextId, a.kind, a.energy / 2, a.pReproduce, a.energyFromFood, a.cell⟩ ∧
    a.energy / 2 + a.energy / 2 = a.energy := by
  refine ⟨?_, ?_, by ring⟩
  · unfold Animal.spawn_offspring
    rw [ha]
    have h1 : findAnimal (updateAnimal w aid (fun b => { b with energy := b.energy / 2 })) aid
        = some { a with energy := a.energy / 2 } := by
      have h2 := findAnimal_updateAnimal w aid
        (fun b => { b with energy := b.energy / 2 }) (fun b => rfl)
      rw [ha] at h2
      exact h2
    unfold findAnimal at h1 ⊢
    simp only [List.find?_append, updateAnimal] at h1 ⊢
    rw [h1]
    rfl
  · unfold Animal.spawn_offspring
    rw [ha]
    simp

/-- Witness: the energy split on a concrete animal with energy 8. -/
theorem spawn_offspring_energy_split_w :
    findAnimal (Animal.spawn_offspring cW 0) 0 = some { cA with energy := cA.energy / 2 } ∧
    (Animal.spawn_offspring cW 0).animals.getLast? =
      some ⟨cW.nextId, cA.kind, cA.energy / 2, cA.pReproduce, cA.energyFromFood, cA.cell⟩ ∧
    cA.energy / 2 + cA.energy / 2 = cA.energy :=
  spawn_offspring_energy_split cW 0 cA rfl

/-- `findAnimal` reads only the animal list. -/
theorem findAnimal_eq_of_animals {w w' : World} (h : w'.animals = w.animals) (aid : Nat) :
    findAnimal w' aid = findAnimal w aid := by
  unfold findAnimal; rw [h]

/-- `findPatch` reads only the patch list. -/
theorem findPatch_eq_of_patches {w w' : World} (h : w'.patches = w.patches) (pid : Nat) :
    findPatch w' pid = findPatch w pid := by
  unfold findPatch; rw [h]

/-- The patch list after the setter runs on a present patch. -/
theorem set_fully_grown_patches (w : World) (pid : Nat) (v : Bool) (p : GrassPatchState)
    (hp : findPatch w pid = some p) :
    ( set_fully_grown w pid v).patches
      = w.patches.map (fun q => if q.id = pid then { q with fullyGrown := v } else q) := by
  unfold set_fully_grown; rw [hp]; cases v <;> rfl

/-- Assigning `False` appends exactly one regrowth event, due
`grass_regrowth_time` ticks from now, whatever the patch's previous state. -/
theorem set_fully_grown_events_false (w : World) (pid : Nat) (p : GrassPatchState)
    (hp : findPatch w pid = some p) :
    ( set_fully_grown w pid false).events
      = w.events ++ [⟨w.time + p.grassRegrowthTime, pid⟩] := by
  unfold set_fully_grown; rw [hp]; rfl

/-- Assigning `True` never schedules anything. -/
theorem set_fully_grown_events_true (w : World) (pid : Nat) :
    ( set_fully_grown w pid true).events = w.events := by
  unfold set_fully_grown; cases hq : findPatch w pid <;> rfl

/-- The setter updates the stored flag of the targeted patch. -/
theorem findPatch_set_fully_grown (w : World) (pid : Nat) (v : Bool) (p : GrassPatchState)
    (hp : findPatch w pid = some p) :
    findPatch ( set_fully_grown w pid v) pid = some { p with fullyGrown := v } := by
  have hpatches := set_fully_grown_patches w pid v p hp
  have h1 : findPatch ( set_fully_grown w pid v) pid
      = (w.patches.map (fun q => if q.id = pid then { q with fullyGrown := v } else q)).find?
          (fun q => decide (q.id = pid)) := by
    unfold findPatch; rw [hpatches]
  rw [h1, find_map_upd (fun q => q.id) (fun q => { q with fullyGrown := v }) pid
    (fun q => rfl) w.patches]
  have h2 : w.patches.find? (fun q => decide (q.id = pid)) = some p := hp
  rw [h2, Option.map_some']

/-- The setter leaves every other patch untouched. -/
theorem findPatch_set_fully_grown_ne (w : World) (pid qid : Nat) (v : Bool)
    (hne : qid ≠ pid) :
    findPatch ( set_fully_grown w pid v) qid = findPatch w qid := by
  unfold set_fully_grown
  cases hq : findPatch w pid with
  | none => rfl
  | some p =>
    have key : (w.patches.map (fun q => if q.id = pid then { q with fullyGrown := v } else q)).find?
        (fun q => decide (q.id = qid)) = w.patches.find? (fun q => decide (q.id = qid)) :=
      find_map_upd_ne (fun q => q.id) (fun q => { q with fullyGrown := v }) pid qid
        (fun q => rfl) hne w.patches
    cases v <;> (unfold findPatch; exact key)

/-- A member of a patch list with distinct ids is what its id lookup finds. -/
theorem findPatch_of_mem (w : World) (p : GrassPatchState)
    (hnd : (w.patches.map (fun q => q.id)).Nodup) (hm : p ∈ w.patches) :
    findPatch w p.id = some p := by
  unfold findPatch
  exact find_id_of_mem (fun q => q.id) w.patches hnd p hm

/-- `Sheep.feed` on a fully grown patch: gain energy, then run the setter
with `False`. -/
theorem sheep_feed_grown_eq (w : World) (aid : Nat) (a : AnimalState)
    (p : GrassPatchState) (ha : findAnimal w aid = some a)
    (hp : findGrassAt w a.cell = some p) (hg : p.fullyGrown = true) :
    Sheep.feed w aid = some ( set_fully_grown
      (updateAnimal w aid (fun b => { b with energy := b.energy + b.energyFromFood }))
      p.id false) := by
  simp [Sheep.feed, ha, hp, hg]

/-- `Sheep.feed` on a not-grown patch: explicit no-effect branch. -/
theorem sheep_feed_ungrown_eq (w : World) (aid : Nat) (a : AnimalState)
    (p : GrassPatchState) (ha : findAnimal w aid = some a)
    (hp : findGrassAt w a.cell = some p) (hg : p.fullyGrown = false) :
    Sheep.feed w aid = some w := by
  simp [Sheep.feed, ha, hp, hg]

/-- Exhaustive description of a successful `Sheep.feed`: either nothing
happened, or a fully grown co-located patch was consumed. -/
theorem sheep_feed_cases (w : World) (aid : Nat) (w1 : World)
    (h : Sheep.feed w aid = some w1) :
    w1 = w ∨
    ∃ a p, findAnimal w aid = some a ∧ findGrassAt w a.cell = some p ∧
      p.fullyGrown = true ∧
      w1 = set_fully_grown
        (updateAnimal w aid (fun b => { b with energy := b.energy + b.energyFromFood }))
        p.id false := by
  cases hfa : findAnimal w aid with
  | none =>
    left
    simp only [Sheep.feed, hfa] at h
    injection h with h
    exact h.symm
  | some a =>
    cases hg : findGrassAt w a.cell with
    | none => simp [Sheep.feed, hfa, hg] at h
    | some p =>
      by_cases hfg : p.fullyGrown
      · right
        refine ⟨a, p, rfl, hg, hfg, ?_⟩
        have heq := sheep_feed_grown_eq w aid a p hfa hg hfg
        rw [heq] at h
        injection h with h
        exact h.symm
      · left
        have hfg2 : p.fullyGrown = false := Bool.not_eq_true _ ▸ hfg
        have heq := sheep_feed_ungrown_eq w aid a p hfa hg hfg2
        rw [heq] at h
        injection h with h
        exact h.symm

/-- A successful `Sheep.feed` never moves the clock. -/
theorem sheep_feed_time (w : World) (aid : Nat) (w1 : World)
    (h : Sheep.feed w aid = some w1) : w1.time = w.time := by
  rcases sheep_feed_cases w aid w1 h with rfl | ⟨a, p, ha, hp, hg, rfl⟩
  · rfl
  · rw [set_fully_grown_time, updateAnimal_time]

/-- C6: a sheep on a cell with a grass patch: if the patch is fully grown,
`Sheep.feed` adds `energy_from_food` to the sheep and sets the patch to
not-grown; if the patch is not grown, `Sheep.feed` returns the world
unchanged — both cases succeed (`some`), the not-grown case being an
explicit normal branch, never an error. -/
theorem sheep_feed_spec (w : World) (aid : Nat) (a : AnimalState) (p : GrassPatchState)
    (ha : findAnimal w aid = some a)
    (hp : findGrassAt w a.cell = some p)
    (hnd : (w.patches.map (fun q => q.id)).Nodup) :
    (p.fullyGrown = true →
      Sheep.feed w aid = some ( set_fully_grown
          (updateAnimal w aid (fun b => { b with energy := b.energy + b.energyFromFood }))
          p.id false) ∧
      ∃ w1, Sheep.feed w aid = some w1 ∧
        findAnimal w1 aid = some { a with energy := a.energy + a.energyFromFood } ∧
        findPatch w1 p.id = some { p with fullyGrown := false }) ∧
    (p.fullyGrown = false → Sheep.feed w aid = some w) := by
  constructor
  · intro hg
    have heq : Sheep.feed w aid = some ( set_fully_grown
        (updateAnimal w aid (fun b => { b with energy := b.energy + b.energyFromFood }))
        p.id false) := sheep_feed_grown_eq w aid a p ha hp hg
    refine ⟨heq, _, heq, ?_, ?_⟩
    · have h1 : findAnimal ( set_fully_grown
          (updateAnimal w aid (fun b => { b with energy := b.energy + b.energyFromFood }))
          p.id false) aid
          = findAnimal (updateAnimal w aid
              (fun b => { b with energy := b.energy + b.energyFromFood })) aid :=
        findAnimal_eq_of_animals (set_fully_grown_animals _ _ _) aid
      have h2 := findAnimal_updateAnimal w aid
        (fun b => { b with energy := b.energy + b.energyFromFood }) (fun b => rfl)
      rw [ha] at h2
      rw [h1, h2]
      rfl
    · have hpm : p ∈ w.patches := List.mem_of_find?_eq_some hp
      have hfp : findPatch w p.id = some p := findPatch_of_mem w p hnd hpm
      have hfp2 : findPatch (updateAnimal w aid
          (fun b => { b with energy := b.energy + b.energyFromFood })) p.id = some p := by
        rw [findPatch_eq_of_patches (updateAnimal_patches _ _ _) p.id]; exact hfp
      exact findPatch_set_fully_grown _ p.id false p hfp2
  · intro hg
    exact sheep_feed_ungrown_eq w aid a p ha hp hg

/-- C8: if the sheep's cell has no grass patch, `Sheep.feed` fails
(`next(...)` raises `StopIteration`), modelled as `none`; under the
precondition that every sheep-occupied cell has a grass patch, `Sheep.feed`
always succeeds. -/
theorem sheep_feed_missing_patch (w : World) (aid : Nat) (a : AnimalState)
    (ha : findAnimal w aid = some a) (hk : a.kind = AnimalKind.sheep) :
    (findGrassAt w a.cell = none → Sheep.feed w aid = none) ∧
    ((∀ b, b ∈ w.animals → b.kind = AnimalKind.sheep → findGrassAt w b.cell ≠ none) →
      (Sheep.feed w aid).isSome = true) := by
  constructor
  · intro h
    simp [Sheep.feed, ha, h]
  · intro hpre
    have hmem : a ∈ w.animals := List.mem_of_find?_eq_some ha
    have h2 := hpre a hmem hk
    simp only [Sheep.feed, ha]
    cases hg : findGrassAt w a.cell with
    | none => exact absurd hg h2
    | some p => by_cases hfg : p.fullyGrown <;> simp [hfg]

/-- `random.choice` on a non-empty list returns the element whose index is
the uniform draw reduced modulo the length, and advances the draw stream. -/
theorem choice_spec {α : Type} (r : RNG) (l : List α) (hne : l ≠ []) :
    ∃ h : (r.nats r.nidx) % l.length < l.length,
      choice r l = some (l.get ⟨(r.nats r.nidx) % l.length, h⟩, (r.nextNat).2) := by
  have hlen : 0 < l.length := List.length_pos.mpr hne
  have hlt : (r.nats r.nidx) % l.length < l.length := Nat.mod_lt _ hlen
  refine ⟨hlt, ?_⟩
  simp only [choice, RNG.nextNat]
  rw [List.getElem?_eq_getElem hlt]
  simp

/-- `random.choice` on an empty list fails. -/
theorem choice_nil {α : Type} (r : RNG) : choice r ([] : List α) = none := rfl

/-- Every element of a non-empty list is selected by some random source. -/
theorem choice_realizes {α : Type} (l : List α) (x : α) (hx : x ∈ l) :
    ∃ r0 : RNG, choice r0 l = some (x, (r0.nextNat).2) := by
  rcases List.mem_iff_getElem.mp hx with ⟨i, hi, hget⟩
  refine ⟨⟨fun _ => 0, fun _ => i, 0, 0⟩, ?_⟩
  have hmod : i % l.length = i := Nat.mod_eq_of_lt hi
  simp only [choice, RNG.nextNat, hmod]
  rw [List.getElem?_eq_getElem hi]
  simp [hget]

/-- Ids pairwise distinct make `id` injective on members. -/
theorem id_inj_of_nodup (w : World)
    (hnd : (w.animals.map (fun b => b.id)).Nodup)
    (x y : AnimalState) (hx : x ∈ w.animals) (hy : y ∈ w.animals)
    (hxy : x.id = y.id) : x = y :=
  List.inj_on_of_nodup_map hnd hx hy hxy

/-- C4: a wolf with at least one co-located sheep picks one of them — the one
indexed by the uniform draw, every co-located sheep being realizable —
gains `energy_from_food`, and removes the chosen sheep, which thereby leaves
every cell's occupant set and every later wolf's candidate list; with no
co-located sheep, `Wolf.feed` changes nothing and is not an error. -/
theorem wolf_feed_spec (w : World) (r : RNG) (aid : Nat) (a : AnimalState)
    (ha : findAnimal w aid = some a) (hk : a.kind = AnimalKind.wolf)
    (hnd : (w.animals.map (fun b => b.id)).Nodup) :
    (sheepAt w a.cell = [] → Wolf.feed w r aid = (w, r)) ∧
    (sheepAt w a.cell ≠ [] →
      ∃ s, s ∈ sheepAt w a.cell ∧ s.kind = AnimalKind.sheep ∧ s.cell = a.cell ∧
        Wolf.feed w r aid
          = (Animal.remove
              (updateAnimal w aid (fun b => { b with energy := b.energy + b.energyFromFood }))
              s.id,
             (r.nextNat).2) ∧
        findAnimal (Wolf.feed w r aid).1 aid
          = some { a with energy := a.energy + a.energyFromFood } ∧
        (∀ c b, b ∈ animalsAt (Wolf.feed w r aid).1 c → b.id ≠ s.id) ∧
        (∀ c b, b ∈ sheepAt (Wolf.feed w r aid).1 c → b.id ≠ s.id) ∧
        (∀ i (hi : i < (sheepAt w a.cell).length),
          (r.nats r.nidx) % (sheepAt w a.cell).length = i →
            s = (sheepAt w a.cell).get ⟨i, hi⟩)) ∧
    (∀ x, x ∈ sheepAt w a.cell → ∃ r0 : RNG, (Wolf.feed w r0 aid).1
        = Animal.remove
            (updateAnimal w aid (fun b => { b with energy := b.energy + b.energyFromFood }))
            x.id) := by
  refine ⟨?_, ?_, ?_⟩
  · intro hnil
    simp only [Wolf.feed, ha, hnil, choice_nil]
  · intro hne
    rcases choice_spec r (sheepAt w a.cell) hne with ⟨hlt, hch⟩
    obtain ⟨s, hs⟩ : ∃ s, (sheepAt w a.cell).get
        ⟨(r.nats r.nidx) % (sheepAt w a.cell).length, hlt⟩ = s := ⟨_, rfl⟩
    rw [hs] at hch
    have hsmem : s ∈ sheepAt w a.cell := by rw [← hs]; exact List.get_mem _ _ _
    have hsprops : s.cell = a.cell ∧ s.kind = AnimalKind.sheep := by
      have h2 := (List.mem_filter.mp hsmem).2
      simp only [Bool.and_eq_true, decide_eq_true_eq] at h2
      exact h2
    have heq : Wolf.feed w r aid
        = (Animal.remove
            (updateAnimal w aid (fun b => { b with energy := b.energy + b.energyFromFood }))
            s.id,
           (r.nextNat).2) := by
      simp only [Wolf.feed, ha, hch]
    have hsa : s ∈ w.animals := (List.mem_filter.mp hsmem).1
    have haa : a ∈ w.animals := List.mem_of_find?_eq_some ha
    have haid : a.id = aid := by
      have := List.find?_some ha
      simpa using this
    have hneid : aid ≠ s.id := by
      intro hc
      have hsa2 : s = a := id_inj_of_nodup w hnd s a hsa haa (by rw [← hc, haid])
      rw [hsa2, hk] at hsprops
      exact AnimalKind.noConfusion hsprops.2
    refine ⟨s, hsmem, hsprops.2, hsprops.1, heq, ?_, ?_, ?_, ?_⟩
    · rw [heq]
      have h1 : findAnimal (Animal.remove
          (updateAnimal w aid (fun b => { b with energy := b.energy + b.energyFromFood }))
          s.id) aid
          = findAnimal (updateAnimal w aid
              (fun b => { b with energy := b.energy + b.energyFromFood })) aid :=
        findAnimal_remove_ne _ s.id aid hneid
      have h2 := findAnimal_updateAnimal w aid
        (fun b => { b with energy := b.energy + b.energyFromFood }) (fun b => rfl)
      rw [ha] at h2
      rw [h1, h2]
      rfl
    · intro c b hb
      have hb2 : b ∈ (Wolf.feed w r aid).1.animals := (List.mem_filter.mp hb).1
      rw [heq] at hb2
      have hb3 := (List.mem_filter.mp hb2).2
      simpa using hb3
    · intro c b hb
      have hb2 : b ∈ (Wolf.feed w r aid).1.animals := (List.mem_filter.mp hb).1
      rw [heq] at hb2
      have hb3 := (List.mem_filter.mp hb2).2
      simpa using hb3
    · intro i hi hmod
      rw [← hs]
      exact congrArg _ (Fin.ext hmod)
  · intro x hx
    rcases choice_realizes (sheepAt w a.cell) x hx with ⟨r0, hch⟩
    refine ⟨r0, ?_⟩
    simp only [Wolf.feed, ha, hch]

/-- C5: a sheep with no wolf-free neighbor cell stays put (not a failure);
otherwise it moves to a wolf-free neighbor cell — never one containing a
wolf — drawn uniformly from the wolf-free cells with fully grown grass when
any exist, else uniformly from all wolf-free cells, every candidate being
realizable by some draw. -/
theorem sheep_move_spec (nb : Nat → List Nat) (w : World) (r : RNG) (aid : Nat)
    (a : AnimalState) (ha : findAnimal w aid = some a)
    (hk : a.kind = AnimalKind.sheep) :
    (cellsWithoutWolves nb w a.cell = [] → Sheep.move nb w r aid = some (w, r)) ∧
    (cellsWithoutWolves nb w a.cell ≠ [] →
      ∃ c, c ∈ cellsWithoutWolves nb w a.cell ∧ cellHasWolf w c = false ∧
        Sheep.move nb w r aid
          = some (updateAnimal w aid (fun b => { b with cell := c }), (r.nextNat).2) ∧
        (cellsWithGrass nb w a.cell ≠ [] → c ∈ cellsWithGrass nb w a.cell ∧
          ∀ i (hi : i < (cellsWithGrass nb w a.cell).length),
            (r.nats r.nidx) % (cellsWithGrass nb w a.cell).length = i →
              c = (cellsWithGrass nb w a.cell).get ⟨i, hi⟩) ∧
        (cellsWithGrass nb w a.cell = [] →
          ∀ i (hi : i < (cellsWithoutWolves nb w a.cell).length),
            (r.nats r.nidx) % (cellsWithoutWolves nb w a.cell).length = i →
              c = (cellsWithoutWolves nb w a.cell).get ⟨i, hi⟩)) ∧
    (∀ x, x ∈ cellsWithGrass nb w a.cell ∨
        (cellsWithGrass nb w a.cell = [] ∧ x ∈ cellsWithoutWolves nb w a.cell) →
      ∃ r0 : RNG, Sheep.move nb w r0 aid
        = some (updateAnimal w aid (fun b => { b with cell := x }), (r0.nextNat).2)) := by
  refine ⟨?_, ?_, ?_⟩
  · intro hnil
    have hlen : (cellsWithoutWolves nb w a.cell).length = 0 := by rw [hnil]; rfl
    simp only [Sheep.move, ha, if_pos hlen]
  · intro hne
    have hlen : ¬ (cellsWithoutWolves nb w a.cell).length = 0 := by
      simpa [List.length_eq_zero] using hne
    by_cases hg : cellsWithGrass nb w a.cell = []
    · have hglen : ¬ (cellsWithGrass nb w a.cell).length > 0 := by
        rw [hg]; simp
      rcases choice_spec r (cellsWithoutWolves nb w a.cell) hne with ⟨hlt, hch⟩
      obtain ⟨c, hc⟩ : ∃ c, (cellsWithoutWolves nb w a.cell).get
          ⟨(r.nats r.nidx) % (cellsWithoutWolves nb w a.cell).length, hlt⟩ = c := ⟨_, rfl⟩
      rw [hc] at hch
      have hcmem : c ∈ cellsWithoutWolves nb w a.cell := by
        rw [← hc]; exact List.get_mem _ _ _
      have hnw : cellHasWolf w c = false := by
        have h2 := (List.mem_filter.mp hcmem).2
        simpa using h2
      refine ⟨c, hcmem, hnw, ?_, fun hgne => absurd hg hgne, ?_⟩
      · simp only [Sheep.move, ha, if_neg hlen, if_neg hglen, hch, Option.map_some']
      · intro _ i hi hmod
        rw [← hc]
        exact congrArg _ (Fin.ext hmod)
    · have hglen : (cellsWithGrass nb w a.cell).length > 0 := List.length_pos.mpr hg
      rcases choice_spec r (cellsWithGrass nb w a.cell) hg with ⟨hlt, hch⟩
      obtain ⟨c, hc⟩ : ∃ c, (cellsWithGrass nb w a.cell).get
          ⟨(r.nats r.nidx) % (cellsWithGrass nb w a.cell).length, hlt⟩ = c := ⟨_, rfl⟩
      rw [hc] at hch
      have hcg : c ∈ cellsWithGrass nb w a.cell := by
        rw [← hc]; exact List.get_mem _ _ _
      have hcmem : c ∈ cellsWithoutWolves nb w a.cell := List.mem_of_mem_filter hcg
      have hnw : cellHasWolf w c = false := by
        have h2 := (List.mem_filter.mp hcmem).2
        simpa using h2
      refine ⟨c, hcmem, hnw, ?_, ?_, fun hgnil => absurd hgnil hg⟩
      · simp only [Sheep.move, ha, if_neg hlen, if_pos hglen, hch, Option.map_some']
      · intro _
        refine ⟨hcg, ?_⟩
        intro i hi hmod
        rw [← hc]
        exact congrArg _ (Fin.ext hmod)
  · intro x hx
    rcases hx with hx | ⟨hg, hx⟩
    · have hg : cellsWithGrass nb w a.cell ≠ [] := List.ne_nil_of_mem hx
      have hne : cellsWithoutWolves nb w a.cell ≠ [] :=
        List.ne_nil_of_mem (List.mem_of_mem_filter hx)
      have hlen : ¬ (cellsWithoutWolves nb w a.cell).length = 0 := by
        simpa [List.length_eq_zero] using hne
      have hglen : (cellsWithGrass nb w a.cell).length > 0 := List.length_pos.mpr hg
      rcases choice_realizes (cellsWithGrass nb w a.cell) x hx with ⟨r0, hch⟩
      refine ⟨r0, ?_⟩
      simp only [Sheep.move, ha, if_neg hlen, if_pos hglen, hch, Option.map_some']
    · have hne : cellsWithoutWolves nb w a.cell ≠ [] := List.ne_nil_of_mem hx
      have hlen : ¬ (cellsWithoutWolves nb w a.cell).length = 0 := by
        simpa [List.length_eq_zero] using hne
      have hglen : ¬ (cellsWithGrass nb w a.cell).length > 0 := by
        rw [hg]; simp
      rcases choice_realizes (cellsWithoutWolves nb w a.cell) x hx with ⟨r0, hch⟩
      refine ⟨r0, ?_⟩
      simp only [Sheep.move, ha, if_neg hlen, if_neg hglen, hch, Option.map_some']

/-- C7: a wolf moves to a neighbor cell drawn uniformly from those containing
at least one sheep when any exist, else uniformly from the whole
neighborhood, with no wolf-avoidance or other exclusion: every neighbor cell
is realizable when no sheep-cell exists. -/
theorem wolf_move_spec (nb : Nat → List Nat) (w : World) (r : RNG) (aid : Nat)
    (a : AnimalState) (ha : findAnimal w aid = some a)
    (hk : a.kind = AnimalKind.wolf) (hnb : nb a.cell ≠ []) :
    ∃ c, c ∈ nb a.cell ∧
      Wolf.move nb w r aid
        = some (updateAnimal w aid (fun b => { b with cell := c }), (r.nextNat).2) ∧
      (cellsWithSheep nb w a.cell ≠ [] → c ∈ cellsWithSheep nb w a.cell ∧
        ∀ i (hi : i < (cellsWithSheep nb w a.cell).length),
          (r.nats r.nidx) % (cellsWithSheep nb w a.cell).length = i →
            c = (cellsWithSheep nb w a.cell).get ⟨i, hi⟩) ∧
      (cellsWithSheep nb w a.cell = [] →
        ∀ i (hi : i < (nb a.cell).length),
          (r.nats r.nidx) % (nb a.cell).length = i → c = (nb a.cell).get ⟨i, hi⟩) ∧
      (∀ x, x ∈ cellsWithSheep nb w a.cell ∨
          (cellsWithSheep nb w a.cell = [] ∧ x ∈ nb a.cell) →
        ∃ r0 : RNG, Wolf.move nb w r0 aid
          = some (updateAnimal w aid (fun b => { b with cell := x }), (r0.nextNat).2)) := by
  have hrealize : ∀ x, x ∈ cellsWithSheep nb w a.cell ∨
      (cellsWithSheep nb w a.cell = [] ∧ x ∈ nb a.cell) →
      ∃ r0 : RNG, Wolf.move nb w r0 aid
        = some (updateAnimal w aid (fun b => { b with cell := x }), (r0.nextNat).2) := by
    intro x hx
    rcases hx with hx | ⟨hs, hx⟩
    · have hslen : (cellsWithSheep nb w a.cell).length > 0 :=
        List.length_pos.mpr (List.ne_nil_of_mem hx)
      rcases choice_realizes (cellsWithSheep nb w a.cell) x hx with ⟨r0, hch⟩
      refine ⟨r0, ?_⟩
      simp only [Wolf.move, ha, if_pos hslen, hch, Option.map_some']
    · have hslen : ¬ (cellsWithSheep nb w a.cell).length > 0 := by rw [hs]; simp
      rcases choice_realizes (nb a.cell) x hx with ⟨r0, hch⟩
      refine ⟨r0, ?_⟩
      simp only [Wolf.move, ha, if_neg hslen, hch, Option.map_some']
  by_cases hs : cellsWithSheep nb w a.cell = []
  · have hslen : ¬ (cellsWithSheep nb w a.cell).length > 0 := by rw [hs]; simp
    rcases choice_spec r (nb a.cell) hnb with ⟨hlt, hch⟩
    obtain ⟨c, hc⟩ : ∃ c, (nb a.cell).get
        ⟨(r.nats r.nidx) % (nb a.cell).length, hlt⟩ = c := ⟨_, rfl⟩
    rw [hc] at hch
    have hcmem : c ∈ nb a.cell := by rw [← hc]; exact List.get_mem _ _ _
    refine ⟨c, hcmem, ?_, fun hsne => absurd hs hsne, ?_, hrealize⟩
    · simp only [Wolf.move, ha, if_neg hslen, hch, Option.map_some']
    · intro _ i hi hmod
      rw [← hc]
      exact congrArg _ (Fin.ext hmod)
  · have hslen : (cellsWithSheep nb w a.cell).length > 0 := List.length_pos.mpr hs
    rcases choice_spec r (cellsWithSheep nb w a.cell) hs with ⟨hlt, hch⟩
    obtain ⟨c, hc⟩ : ∃ c, (cellsWithSheep nb w a.cell).get
        ⟨(r.nats r.nidx) % (cellsWithSheep nb w a.cell).length, hlt⟩ = c := ⟨_, rfl⟩
    rw [hc] at hch
    have hcs : c ∈ cellsWithSheep nb w a.cell := by rw [← hc]; exact List.get_mem _ _ _
    have hcmem : c ∈ nb a.cell := List.mem_of_mem_filter hcs
    refine ⟨c, hcmem, ?_, ?_, fun hsnil => absurd hsnil hs, hrealize⟩
    · simp only [Wolf.move, ha, if_pos hslen, hch, Option.map_some']
    · intro _
      refine ⟨hcs, ?_⟩
      intro i hi hmod
      rw [← hc]
      exact congrArg _ (Fin.ext hmod)

/-- C1: one step of an alive animal runs move, then the unconditional
`energy -= 1`, then feed, then the death-or-reproduction resolution: if the
energy is negative the animal is removed, no offspring appears and the
reproduction draw is never evaluated (the random source is returned
untouched); otherwise exactly one reproduction draw is consumed, the animal
survives, and offspring is spawned exactly when the draw is below
`p_reproduce` — death and reproduction are mutually exclusive by the
branch structure. -/
theorem animal_step_spec (nb : Nat → List Nat) (w : World) (r : RNG) (aid : Nat)
    (w1 w3 : World) (r1 r2 : RNG) (a1 a3 : AnimalState)
    (hmove : Animal.move nb w r aid = some (w1, r1))
    (ha1 : findAnimal w1 aid = some a1)
    (hfeed : Animal.feed (metabolize w1 aid) r1 aid = some (w3, r2))
    (ha3 : findAnimal w3 aid = some a3) :
    Animal.step nb w r aid = some (resolve w3 r2 aid) ∧
    findAnimal (metabolize w1 aid) aid = some { a1 with energy := a1.energy - 1 } ∧
    (a3.energy < 0 →
      resolve w3 r2 aid = (Animal.remove w3 aid, r2) ∧
      findAnimal (resolve w3 r2 aid).1 aid = none ∧
      (resolve w3 r2 aid).1.nextId = w3.nextId ∧
      (resolve w3 r2 aid).2 = r2) ∧
    (¬ a3.energy < 0 →
      (resolve w3 r2 aid).2.fidx = r2.fidx + 1 ∧
      (findAnimal (resolve w3 r2 aid).1 aid).isSome = true ∧
      (r2.floats r2.fidx < a3.pReproduce →
        (resolve w3 r2 aid).1 = Animal.spawn_offspring w3 aid ∧
        (resolve w3 r2 aid).1.animals.length = w3.animals.length + 1) ∧
      (¬ r2.floats r2.fidx < a3.pReproduce → (resolve w3 r2 aid).1 = w3)) := by
  refine ⟨?_, ?_, ?_, ?_⟩
  · simp only [Animal.step, hmove, Option.bind, hfeed, Option.map]
  · have h2 := findAnimal_updateAnimal w1 aid
      (fun b => { b with energy := b.energy - 1 }) (fun b => rfl)
    rw [ha1] at h2
    exact h2
  · intro hd
    have hres : resolve w3 r2 aid = (Animal.remove w3 aid, r2) := by
      simp only [resolve, ha3, if_pos hd]
    refine ⟨hres, ?_, ?_, ?_⟩
    · rw [hres]; exact findAnimal_remove w3 aid
    · rw [hres]; rfl
    · rw [hres]
  · intro hd
    by_cases hu : r2.floats r2.fidx < a3.pReproduce
    · have hres : resolve w3 r2 aid
          = (Animal.spawn_offspring w3 aid,
             { r2 with fidx := r2.fidx + 1 }) := by
        simp only [resolve, ha3, if_neg hd, RNG.nextFloat, if_pos hu]
      refine ⟨by rw [hres], ?_, fun _ => ⟨by rw [hres], ?_⟩, fun hc => absurd hu hc⟩
      · rw [hres]
        have hs := (spawn_offspring_energy_split w3 aid a3 ha3).1
        simp [hs]
      · rw [hres]
        simp only [Animal.spawn_offspring, ha3]
        simp [updateAnimal]
    · have hres : resolve w3 r2 aid = (w3, { r2 with fidx := r2.fidx + 1 }) := by
        simp only [resolve, ha3, if_neg hd, RNG.nextFloat, if_neg hu]
      refine ⟨by rw [hres], ?_, fun hc => absurd hc hu, fun _ => by rw [hres]⟩
      rw [hres]
      simp [ha3]

/-- Stable insertion keeps exactly the old elements plus the new one. -/
theorem mem_insertByDue (e x : Event) (l : List Event) :
    x ∈ insertByDue e l ↔ x = e ∨ x ∈ l := by
  induction l with
  | nil => simp [insertByDue]
  | cons f fs ih =>
    by_cases h : e.due ≤ f.due
    · simp [insertByDue, h]
    · simp [insertByDue, h, ih]
      tauto

/-- Sorting by due time keeps exactly the same events. -/
theorem mem_sortByDue (x : Event) (l : List Event) :
    x ∈ sortByDue l ↔ x ∈ l := by
  induction l with
  | nil => simp [sortByDue]
  | cons f fs ih =>
    simp only [sortByDue, List.foldr_cons] at *
    rw [mem_insertByDue, ih, List.mem_cons]

/-- Firing events never touches the event queue itself. -/
theorem foldl_set_true_events (evs : List Event) (w : World) :
    (evs.foldl (fun acc e => set_fully_grown acc e.pid true) w).events = w.events := by
  induction evs generalizing w with
  | nil => rfl
  | cons e evs ih => rw [List.foldl_cons, ih, set_fully_grown_events_true]

/-- Firing events never touches the clock. -/
theorem foldl_set_true_time (evs : List Event) (w : World) :
    (evs.foldl (fun acc e => set_fully_grown acc e.pid true) w).time = w.time := by
  induction evs generalizing w with
  | nil => rfl
  | cons e evs ih => rw [List.foldl_cons, ih, set_fully_grown_time]

/-- The setter keeps the patch id list. -/
theorem set_fully_grown_ids (w : World) (pid : Nat) (v : Bool) :
    (( set_fully_grown w pid v).patches.map (fun p => p.id))
      = w.patches.map (fun p => p.id) := by
  cases hp : findPatch w pid with
  | none =>
    unfold set_fully_grown
    rw [hp]
  | some p =>
    rw [set_fully_grown_patches w pid v p hp, List.map_map]
    apply List.map_congr_left
    intro q _
    by_cases h : q.id = pid <;> simp [h]

/-- Firing events keeps the patch id list. -/
theorem foldl_set_true_ids (evs : List Event) (w : World) :
    ((evs.foldl (fun acc e => set_fully_grown acc e.pid true) w).patches.map
        (fun p => p.id))
      = w.patches.map (fun p => p.id) := by
  induction evs generalizing w with
  | nil => rfl
  | cons e evs ih => rw [List.foldl_cons, ih, set_fully_grown_ids]

/-- The setter cannot create a patch. -/
theorem set_fully_grown_findPatch_none (w : World) (pid qid : Nat) (v : Bool)
    (h : findPatch w pid = none) :
    findPatch ( set_fully_grown w qid v) pid = none := by
  by_cases hq : pid = qid
  · subst hq
    unfold set_fully_grown
    rw [h]
    exact h
  · rw [findPatch_set_fully_grown_ne w qid pid v hq]
    exact h

/-- Firing events cannot create a patch. -/
theorem foldl_set_true_findPatch_none (evs : List Event) (w : World) (pid : Nat)
    (h : findPatch w pid = none) :
    findPatch (evs.foldl (fun acc e => set_fully_grown acc e.pid true) w) pid = none := by
  induction evs generalizing w with
  | nil => exact h
  | cons e evs ih =>
    rw [List.foldl_cons]
    exact ih _ (set_fully_grown_findPatch_none w pid e.pid true h)

/-- Firing events whose targets do not include `pid` leaves that patch's
lookup unchanged. -/
theorem foldl_set_true_findPatch_not_mem (evs : List Event) (w : World) (pid : Nat)
    (h : pid ∉ evs.map (fun e => e.pid)) :
    findPatch (evs.foldl (fun acc e => set_fully_grown acc e.pid true) w) pid
      = findPatch w pid := by
  induction evs generalizing w with
  | nil => rfl
  | cons e evs ih =>
    rw [List.map_cons, List.mem_cons] at h
    push_neg at h
    rw [List.foldl_cons, ih _ h.2,
      findPatch_set_fully_grown_ne w e.pid pid true h.1]

/-- Firing a batch of events containing one for `pid` sets that patch's flag
to `True`. -/
theorem foldl_set_true_findPatch_mem (evs : List Event) (w : World) (pid : Nat)
    (p : GrassPatchState) (hmem : pid ∈ evs.map (fun e => e.pid))
    (hp : findPatch w pid = some p) :
    findPatch (evs.foldl (fun acc e => set_fully_grown acc e.pid true) w) pid
      = some { p with fullyGrown := true } := by
  induction evs generalizing w p with
  | nil => cases hmem
  | cons e evs ih =>
    rw [List.foldl_cons]
    rw [List.map_cons, List.mem_cons] at hmem
    by_cases he : e.pid = pid
    · have h1 : findPatch ( set_fully_grown w e.pid true) pid
          = some { p with fullyGrown := true } := by
        rw [he]
        exact findPatch_set_fully_grown w pid true p hp
      by_cases hmem2 : pid ∈ evs.map (fun e => e.pid)
      · have h2 := ih ( set_fully_grown w e.pid true)
          { p with fullyGrown := true } hmem2 h1
        exact h2
      · rw [foldl_set_true_findPatch_not_mem evs _ pid hmem2]
        exact h1
    · have hmem2 : pid ∈ evs.map (fun e => e.pid) := by
        rcases hmem with hmem | hmem
        · exact absurd hmem.symm he
        · exact hmem
      have h1 : findPatch ( set_fully_grown w e.pid true) pid = findPatch w pid :=
        findPatch_set_fully_grown_ne w e.pid pid true (fun hc => he hc.symm)
      exact ih _ _ hmem2 (h1.trans hp)

/-- The events left after `fire_due` are exactly the not-yet-due ones. -/
theorem fire_due_events (w : World) :
    (fire_due w).events = w.events.filter (fun e => !(decide (e.due ≤ w.time))) := by
  unfold fire_due
  rw [foldl_set_true_events]

/-- `fire_due` does not advance the clock by itself. -/
theorem fire_due_time (w : World) : (fire_due w).time = w.time := by
  unfold fire_due
  rw [foldl_set_true_time]

/-- `fire_due` keeps the patch id list. -/
theorem fire_due_ids (w : World) :
    ((fire_due w).patches.map (fun p => p.id)) = w.patches.map (fun p => p.id) := by
  unfold fire_due
  rw [foldl_set_true_ids]

/-- The pending events of one patch after `fire_due`. -/
theorem patchEvents_fire_due (w : World) (pid : Nat) :
    patchEvents (fire_due w) pid
      = (patchEvents w pid).filter (fun e => !(decide (e.due ≤ w.time))) := by
  unfold patchEvents
  rw [fire_due_events, List.filter_filter, List.filter_filter]
  apply List.filter_congr
  intro e _
  exact Bool.and_comm _ _

/-- A patch with no due pending event keeps its lookup across `fire_due`. -/
theorem fire_due_findPatch_not_due (w : World) (pid : Nat)
    (h : ∀ e, e ∈ w.events → e.pid = pid → ¬ e.due ≤ w.time) :
    findPatch (fire_due w) pid = findPatch w pid := by
  unfold fire_due
  rw [foldl_set_true_findPatch_not_mem]
  · rfl
  · intro hmem
    rcases List.mem_map.mp hmem with ⟨e, he, hpid⟩
    rw [mem_sortByDue] at he
    rcases List.mem_filter.mp he with ⟨he2, hdue⟩
    exact h e he2 hpid (by simpa using hdue)

/-- A patch with a due pending event is fully grown after `fire_due`. -/
theorem fire_due_findPatch_due (w : World) (pid : Nat) (p : GrassPatchState)
    (e : Event) (hp : findPatch w pid = some p) (he : e ∈ w.events)
    (hpid : e.pid = pid) (hdue : e.due ≤ w.time) :
    findPatch (fire_due w) pid = some { p with fullyGrown := true } := by
  unfold fire_due
  apply foldl_set_true_findPatch_mem
  · apply List.mem_map.mpr
    refine ⟨e, ?_, hpid⟩
    rw [mem_sortByDue]
    exact List.mem_filter.mpr ⟨he, by simpa using hdue⟩
  · exact hp

/-- `patchEvents` reads only the event queue. -/
theorem patchEvents_eq_of_events {w w1 : World} (h : w1.events = w.events) (pid : Nat) :
    patchEvents w1 pid = patchEvents w pid := by
  unfold patchEvents; rw [h]

/-- The invariant only mentions the clock, the patches and the events, so
any operation leaving those untouched preserves it. -/
theorem inv_quiet (w w1 : World) (ht : w1.time = w.time) (hpt : w1.patches = w.patches)
    (he : w1.events = w.events) (hi : Inv w) : Inv w1 := by
  constructor
  · rw [hpt]; exact hi.1
  · intro pid p hp
    rw [findPatch_eq_of_patches hpt] at hp
    have h2 := hi.2 pid p hp
    refine ⟨h2.1, ?_, ?_⟩
    · intro hg
      rw [patchEvents_eq_of_events he]
      exact h2.2.1 hg
    · intro hg
      rcases h2.2.2 hg with ⟨d, hd1, hd2⟩
      refine ⟨d, ?_, ?_⟩
      · rw [patchEvents_eq_of_events he]; exact hd1
      · rw [ht]; exact hd2

/-- A sheep's feeding step preserves the invariant: it assigns `False` only
to a fully grown patch, which by the invariant has no pending event, and the
setter then schedules exactly one, due `grass_regrowth_time ≥ 1` ticks
later. -/
theorem inv_feed (w : World) (aid : Nat) (w1 : World)
    (h : Sheep.feed w aid = some w1) (hi : Inv w) : Inv w1 := by
  rcases sheep_feed_cases w aid w1 h with rfl | ⟨a, p, ha, hp, hg, rfl⟩
  · exact hi
  · have hpm : p ∈ w.patches := List.mem_of_find?_eq_some hp
    have hfp : findPatch w p.id = some p := findPatch_of_mem w p hi.1 hpm
    have hfpu : findPatch (updateAnimal w aid
        (fun b => { b with energy := b.energy + b.energyFromFood })) p.id = some p := hfp
    have hprops := hi.2 p.id p hfp
    have hevents : ( set_fully_grown (updateAnimal w aid
          (fun b => { b with energy := b.energy + b.energyFromFood })) p.id false).events
        = w.events ++ [⟨w.time + p.grassRegrowthTime, p.id⟩] :=
      set_fully_grown_events_false _ p.id p hfpu
    constructor
    · rw [set_fully_grown_ids]
      exact hi.1
    · intro qid q hq
      by_cases hqp : qid = p.id
      · subst hqp
        rw [findPatch_set_fully_grown _ p.id false p hfpu] at hq
        injection hq with hq
        subst hq
        refine ⟨hprops.1, ?_, ?_⟩
        · intro hc; exact absurd hc (by simp)
        · intro _
          refine ⟨w.time + p.grassRegrowthTime, ?_, ?_⟩
          · unfold patchEvents
            rw [hevents, List.filter_append]
            have h1 : patchEvents w p.id = [] := hprops.2.1 hg
            unfold patchEvents at h1
            rw [h1]
            simp
          · rw [set_fully_grown_time, updateAnimal_time]
            exact Nat.lt_add_of_pos_right hprops.1
      · rw [findPatch_set_fully_grown_ne _ p.id qid false hqp] at hq
        have hq' : findPatch w qid = some q := hq
        have h2 := hi.2 qid q hq'
        have hpe : patchEvents ( set_fully_grown (updateAnimal w aid
              (fun b => { b with energy := b.energy + b.energyFromFood })) p.id false) qid
            = patchEvents w qid := by
          unfold patchEvents
          rw [hevents, List.filter_append]
          have hne2 : ¬ ((⟨w.time + p.grassRegrowthTime, p.id⟩ : Event).pid = qid) :=
            fun hc => hqp hc.symm
          simp [hne2]
        refine ⟨h2.1, ?_, ?_⟩
        · intro hgq
          rw [hpe]
          exact h2.2.1 hgq
        · intro hgq
          rcases h2.2.2 hgq with ⟨d, hd1, hd2⟩
          refine ⟨d, ?_, ?_⟩
          · rw [hpe]; exact hd1
          · rw [set_fully_grown_time, updateAnimal_time]
            exact hd2

/-- Advancing the clock and firing the due events preserves the invariant:
a grown patch has no pending event and stays put; a growing patch's single
event either fires exactly now — leaving it grown with no pending event —
or remains the single pending event, still strictly in the future. -/
theorem inv_advance (w : World) (hi : Inv w) :
    Inv (fire_due { w with time := w.time + 1 }) := by
  constructor
  · rw [fire_due_ids]
    exact hi.1
  · intro pid p1 hp1
    cases hp0 : findPatch w pid with
    | none =>
      have hnone : findPatch (fire_due { w with time := w.time + 1 }) pid = none := by
        unfold fire_due
        exact foldl_set_true_findPatch_none _ _ pid hp0
      rw [hnone] at hp1
      cases hp1
    | some p0 =>
      have h0 := hi.2 pid p0 hp0
      have hpe1 : patchEvents ({ w with time := w.time + 1 } : World) pid
          = patchEvents w pid := patchEvents_eq_of_events rfl pid
      by_cases hg : p0.fullyGrown = true
      · have hnodue : ∀ e, e ∈ ({ w with time := w.time + 1 } : World).events →
            e.pid = pid → ¬ e.due ≤ ({ w with time := w.time + 1 } : World).time := by
          intro e he hepid _
          have hmem : e ∈ patchEvents w pid :=
            List.mem_filter.mpr ⟨he, by simpa using hepid⟩
          rw [h0.2.1 hg] at hmem
          cases hmem
        have heq : findPatch (fire_due { w with time := w.time + 1 }) pid = some p0 :=
          (fire_due_findPatch_not_due _ pid hnodue).trans hp0
        rw [heq] at hp1
        injection hp1 with hp1
        subst hp1
        refine ⟨h0.1, ?_, ?_⟩
        · intro _
          rw [patchEvents_fire_due, hpe1, h0.2.1 hg]
          rfl
        · intro hc
          rw [hg] at hc
          cases hc
      · have hgf : p1.fullyGrown = false → True := fun _ => trivial
        have hg0 : p0.fullyGrown = false := by
          revert hg; cases p0.fullyGrown <;> simp
        rcases h0.2.2 hg0 with ⟨d, hd, hdt⟩
        have hdmem : (⟨d, pid⟩ : Event) ∈ w.events := by
          have hmem : (⟨d, pid⟩ : Event) ∈ patchEvents w pid := by
            rw [hd]; exact List.mem_singleton_self _
          exact (List.mem_filter.mp hmem).1
        by_cases hfire : d ≤ w.time + 1
        · have heq : findPatch (fire_due { w with time := w.time + 1 }) pid
              = some { p0 with fullyGrown := true } :=
            fire_due_findPatch_due _ pid p0 ⟨d, pid⟩ hp0 hdmem rfl hfire
          rw [heq] at hp1
          injection hp1 with hp1
          subst hp1
          refine ⟨h0.1, ?_, ?_⟩
          · intro _
            rw [patchEvents_fire_due, hpe1, hd]
            simp [hfire]
          · intro hc
            exact absurd hc (by simp)
        · have hnodue : ∀ e, e ∈ ({ w with time := w.time + 1 } : World).events →
              e.pid = pid → ¬ e.due ≤ ({ w with time := w.time + 1 } : World).time := by
            intro e he hepid
            have hmem : e ∈ patchEvents w pid :=
              List.mem_filter.mpr ⟨he, by simpa using hepid⟩
            rw [hd, List.mem_singleton] at hmem
            subst hmem
            exact hfire
          have heq : findPatch (fire_due { w with time := w.time + 1 }) pid = some p0 :=
            (fire_due_findPatch_not_due _ pid hnodue).trans hp0
          rw [heq] at hp1
          injection hp1 with hp1
          subst hp1
          refine ⟨h0.1, ?_, ?_⟩
          · intro hc
            rw [hg0] at hc
            cases hc
          · intro _
            refine ⟨d, ?_, ?_⟩
            · rw [patchEvents_fire_due, hpe1, hd]
              simp [hfire]
            · rw [fire_due_time]
              exact Nat.lt_of_not_le hfire

/-- Every grass transition preserves the invariant. -/
theorem inv_gstep (w w1 : World) (hi : Inv w) (h : GStep w w1) : Inv w1 := by
  cases h with
  | advance => exact inv_advance w hi
  | feed x aid hf => exact inv_feed _ aid _ hf hi
  | quiet x ht hpt he => exact inv_quiet _ _ ht hpt he hi

/-- The invariant propagates along any reachable trace. -/
theorem inv_reachable (w w1 : World) (hi : Inv w)
    (h : Relation.ReflTransGen GStep w w1) : Inv w1 := by
  induction h with
  | refl => exact hi
  | tail hab hbc ih => exact inv_gstep _ _ ih hbc

/-- Grass transitions never move the clock backwards. -/
theorem gstep_time_mono (w w1 : World) (h : GStep w w1) : w.time ≤ w1.time := by
  cases h with
  | advance =>
    rw [fire_due_time]
    exact Nat.le_succ _
  | feed x aid hf =>
    rw [sheep_feed_time _ aid _ hf]
  | quiet x ht hpt he =>
    rw [ht]

/-- One grass transition that stays strictly before the due tick preserves
`TracksEvent`: the event cannot fire early, the not-grown patch cannot be
consumed again, and quiet operations touch nothing relevant. -/
theorem tracks_step (pid d : Nat) (w w1 : World) (h : GStep w w1)
    (ht : TracksEvent pid d w) (hlt : w1.time < d) : TracksEvent pid d w1 := by
  obtain ⟨hi, htw, ⟨q, hq, hqf⟩, hpe⟩ := ht
  have hi1 : Inv w1 := inv_gstep w w1 hi h
  cases h with
  | advance =>
    have ht1 : w.time + 1 < d := by
      rw [fire_due_time] at hlt
      exact hlt
    have hnodue : ∀ e, e ∈ ({ w with time := w.time + 1 } : World).events →
        e.pid = pid → ¬ e.due ≤ ({ w with time := w.time + 1 } : World).time := by
      intro e he hepid
      have hmem : e ∈ patchEvents w pid :=
        List.mem_filter.mpr ⟨he, by simpa using hepid⟩
      rw [hpe, List.mem_singleton] at hmem
      subst hmem
      exact Nat.not_le.mpr ht1
    refine ⟨hi1, hlt, ⟨q, ?_, hqf⟩, ?_⟩
    · rw [fire_due_findPatch_not_due _ pid hnodue]
      exact hq
    · rw [patchEvents_fire_due]
      have hpe2 : patchEvents ({ w with time := w.time + 1 } : World) pid
          = [⟨d, pid⟩] := hpe
      rw [hpe2]
      have hkeep : ¬ ((⟨d, pid⟩ : Event).due ≤ ({ w with time := w.time + 1 } : World).time) :=
        Nat.not_le.mpr ht1
      simp [hkeep]
  | feed x aid hf =>
    rcases sheep_feed_cases _ aid _ hf with rfl | ⟨a, p, ha, hp, hg, rfl⟩
    · exact ⟨hi1, hlt, ⟨q, hq, hqf⟩, hpe⟩
    · have hpm : p ∈ w.patches := List.mem_of_find?_eq_some hp
      have hfp : findPatch w p.id = some p := findPatch_of_mem w p hi.1 hpm
      have hne : p.id ≠ pid := by
        intro hc
        rw [hc] at hfp
        rw [hfp] at hq
        injection hq with hq
        rw [hq] at hg
        rw [hg] at hqf
        cases hqf
      have hfpu : findPatch (updateAnimal w aid
          (fun b => { b with energy := b.energy + b.energyFromFood })) p.id = some p := hfp
      refine ⟨hi1, hlt, ⟨q, ?_, hqf⟩, ?_⟩
      · rw [findPatch_set_fully_grown_ne _ p.id pid false (fun hc => hne hc.symm)]
        exact hq
      · have hev := set_fully_grown_events_false _ p.id p hfpu
        unfold patchEvents
        rw [hev, List.filter_append]
        have hpe2 : (updateAnimal w aid
            (fun b => { b with energy := b.energy + b.energyFromFood })).events.filter
              (fun e => decide (e.pid = pid)) = [⟨d, pid⟩] := hpe
        rw [hpe2]
        simp [hne]
  | quiet x ht hpt he =>
    refine ⟨hi1, hlt, ⟨q, ?_, hqf⟩, ?_⟩
    · rw [findPatch_eq_of_patches hpt]
      exact hq
    · rw [patchEvents_eq_of_events he]
      exact hpe

/-- `TracksEvent` propagates along any reachable trace that stays strictly
before the due tick. -/
theorem tracks_rtg (pid d : Nat) (w w1 : World)
    (h : Relation.ReflTransGen GStep w w1) (ht : TracksEvent pid d w)
    (hlt : w1.time < d) : TracksEvent pid d w1 := by
  induction h with
  | refl => exact ht
  | tail hab hbc ih =>
    exact tracks_step pid d _ _ hbc
      (ih (lt_of_le_of_lt (gstep_time_mono _ _ hbc) hlt)) hlt

/-- `GrassPatch.__init__` never moves the clock. -/
theorem grass_create_time (w : World) (cd rt c : Nat) :
    (GrassPatch.create w cd rt c).time = w.time := by
  unfold GrassPatch.create
  by_cases h : cd = 0 <;> simp [h]

/-- The patch list after `GrassPatch.__init__`. -/
theorem grass_create_patches (w : World) (cd rt c : Nat) :
    (GrassPatch.create w cd rt c).patches
      = w.patches ++ [⟨w.nextId, decide (cd = 0), rt, c⟩] := by
  unfold GrassPatch.create
  by_cases h : cd = 0 <;> simp [h]

/-- The event queue after `GrassPatch.__init__` with zero countdown. -/
theorem grass_create_events_zero (w : World) (rt c : Nat) :
    (GrassPatch.create w 0 rt c).events = w.events := by
  unfold GrassPatch.create
  simp

/-- The event queue after `GrassPatch.__init__` with positive countdown. -/
theorem grass_create_events_pos (w : World) (cd rt c : Nat) (h : cd ≠ 0) :
    (GrassPatch.create w cd rt c).events
      = w.events ++ [⟨w.time + cd, w.nextId⟩] := by
  unfold GrassPatch.create
  simp [h]

/-- The new patch's lookup after `GrassPatch.__init__`: fully grown iff the
countdown is zero. -/
theorem grass_create_find (w : World) (cd rt c : Nat)
    (hnone : findPatch w w.nextId = none) :
    findPatch (GrassPatch.create w cd rt c) w.nextId
      = some ⟨w.nextId, decide (cd = 0), rt, c⟩ := by
  unfold findPatch
  rw [grass_create_patches, List.find?_append]
  have h1 : w.patches.find? (fun p => decide (p.id = w.nextId)) = none := hnone
  rw [h1]
  simp

/-- `GrassPatch.__init__` establishes the invariant for a fresh id when the
regrowth time is positive. -/
theorem grass_create_inv (w : World) (cd rt c : Nat) (hi : Inv w) (hrt : 1 ≤ rt)
    (hnone : findPatch w w.nextId = none) (hfresh : patchEvents w w.nextId = []) :
    Inv (GrassPatch.create w cd rt c) := by
  have hnotmem : w.nextId ∉ w.patches.map (fun p => p.id) := by
    intro hmem
    rcases List.mem_map.mp hmem with ⟨p, hpm, hpid⟩
    have hall : ∀ x ∈ w.patches, ¬ (decide (x.id = w.nextId) = true) :=
      List.find?_eq_none.mp hnone
    exact hall p hpm (by simp [hpid])
  constructor
  · rw [grass_create_patches, List.map_append]
    refine hi.1.append (List.nodup_singleton _) ?_
    intro x hx hx2
    rw [List.map_singleton, List.mem_singleton] at hx2
    subst hx2
    exact hnotmem hx
  · intro pid p hp
    unfold findPatch at hp
    rw [grass_create_patches, List.find?_append] at hp
    cases hfind : w.patches.find? (fun q => decide (q.id = pid)) with
    | some p0 =>
      rw [hfind, Option.or_some] at hp
      injection hp with hp
      subst hp
      have hfp : findPatch w pid = some p0 := hfind
      have hmemid : pid ∈ w.patches.map (fun q => q.id) := by
        have hm := List.mem_of_find?_eq_some hfind
        have hid : p0.id = pid := by simpa using List.find?_some hfind
        exact List.mem_map.mpr ⟨p0, hm, hid⟩
      have hne : pid ≠ w.nextId := fun hc => hnotmem (hc ▸ hmemid)
      have h0 := hi.2 pid p0 hfp
      have hpev : patchEvents (GrassPatch.create w cd rt c) pid = patchEvents w pid := by
        by_cases hcd : cd = 0
        · subst hcd
          exact patchEvents_eq_of_events (grass_create_events_zero w rt c) pid
        · unfold patchEvents
          rw [grass_create_events_pos w cd rt c hcd, List.filter_append]
          have hne2 : ¬ ((⟨w.time + cd, w.nextId⟩ : Event).pid = pid) :=
            fun hc => hne hc.symm
          simp [hne2]
      refine ⟨h0.1, ?_, ?_⟩
      · intro hg
        rw [hpev]
        exact h0.2.1 hg
      · intro hg
        rcases h0.2.2 hg with ⟨d, hd1, hd2⟩
        refine ⟨d, ?_, ?_⟩
        · rw [hpev]; exact hd1
        · rw [grass_create_time]; exact hd2
    | none =>
      rw [hfind, Option.none_or] at hp
      have hps : pid = w.nextId ∧
          p = ⟨w.nextId, decide (cd = 0), rt, c⟩ := by
        by_cases hpid : (⟨w.nextId, decide (cd = 0), rt, c⟩ : GrassPatchState).id = pid
        · have hdec : decide
              ((⟨w.nextId, decide (cd = 0), rt, c⟩ : GrassPatchState).id = pid) = true :=
            decide_eq_true hpid
          simp only [List.find?, hdec] at hp
          injection hp with hp
          exact ⟨hpid.symm, hp.symm⟩
        · have hdec : decide
              ((⟨w.nextId, decide (cd = 0), rt, c⟩ : GrassPatchState).id = pid) = false := by
            simpa using hpid
          simp only [List.find?, hdec] at hp
          exact Option.noConfusion hp
      rcases hps with ⟨hpid, hpval⟩
      subst hpid
      subst hpval
      refine ⟨hrt, ?_, ?_⟩
      · intro hg
        have hcd : cd = 0 := by simpa using hg
        subst hcd
        rw [patchEvents_eq_of_events (grass_create_events_zero w rt c)]
        exact hfresh
      · intro hg
        have hcd : cd ≠ 0 := by simpa using hg
        refine ⟨w.time + cd, ?_, ?_⟩
        · unfold patchEvents
          rw [grass_create_events_pos w cd rt c hcd, List.filter_append]
          have hfresh2 : w.events.filter (fun e => decide (e.pid = w.nextId)) = [] := hfresh
          rw [hfresh2]
          simp
        · rw [grass_create_time]
          exact Nat.lt_add_of_pos_right (Nat.pos_of_ne_zero hcd)

/-- C3: the grass automaton. At construction a patch is fully grown iff the
countdown is zero, and otherwise exactly one regrowth event is scheduled
`countdown` ticks from creation; construction on a fresh id establishes the
automaton invariant; every grass transition preserves it, so at every
reachable state each patch has at most one pending regrowth event; and a
patch consumed at tick `t` with regrowth time `r` acquires exactly one
pending event due `t + r`, stays not-grown at every reachable state whose
clock is before `t + r`, and turns fully grown exactly when the clock
advances into tick `t + r`. -/
theorem grass_regrowth_automaton :
    (∀ w cd rt c, findPatch w w.nextId = none → patchEvents w w.nextId = [] →
      findPatch (GrassPatch.create w cd rt c) w.nextId
          = some ⟨w.nextId, decide (cd = 0), rt, c⟩ ∧
      (cd = 0 → patchEvents (GrassPatch.create w cd rt c) w.nextId = []) ∧
      (cd ≠ 0 → patchEvents (GrassPatch.create w cd rt c) w.nextId
          = [⟨w.time + cd, w.nextId⟩])) ∧
    (∀ w cd rt c, Inv w → 1 ≤ rt → findPatch w w.nextId = none →
      patchEvents w w.nextId = [] → Inv (GrassPatch.create w cd rt c)) ∧
    (∀ w w1, Inv w → Relation.ReflTransGen GStep w w1 →
      ∀ pid p, findPatch w1 pid = some p → (patchEvents w1 pid).length ≤ 1) ∧
    (∀ w aid w1 a p, Inv w → Sheep.feed w aid = some w1 →
      findAnimal w aid = some a → findGrassAt w a.cell = some p →
      p.fullyGrown = true →
      patchEvents w1 p.id = [⟨w.time + p.grassRegrowthTime, p.id⟩] ∧
      ∀ w2, Relation.ReflTransGen GStep w1 w2 →
        (w2.time < w.time + p.grassRegrowthTime →
          ∃ q, findPatch w2 p.id = some q ∧ q.fullyGrown = false) ∧
        (w2.time + 1 = w.time + p.grassRegrowthTime →
          ∃ q, findPatch (fire_due { w2 with time := w2.time + 1 }) p.id = some q ∧
            q.fullyGrown = true)) := by
  refine ⟨?_, ?_, ?_, ?_⟩
  · intro w cd rt c hnone hfresh
    refine ⟨grass_create_find w cd rt c hnone, ?_, ?_⟩
    · intro hcd
      subst hcd
      rw [patchEvents_eq_of_events (grass_create_events_zero w rt c)]
      exact hfresh
    · intro hcd
      unfold patchEvents
      rw [grass_create_events_pos w cd rt c hcd, List.filter_append]
      have hfresh2 : w.events.filter (fun e => decide (e.pid = w.nextId)) = [] := hfresh
      rw [hfresh2]
      simp
  · intro w cd rt c hi hrt hnone hfresh
    exact grass_create_inv w cd rt c hi hrt hnone hfresh
  · intro w w1 hi hr pid p hp
    have hi1 := inv_reachable w w1 hi hr
    have h0 := hi1.2 pid p hp
    by_cases hg : p.fullyGrown = true
    · rw [h0.2.1 hg]
      simp
    · have hgf : p.fullyGrown = false := by revert hg; cases p.fullyGrown <;> simp
      rcases h0.2.2 hgf with ⟨d, hd, _⟩
      rw [hd]
      simp
  · intro w aid w1 a p hi hf ha hp hg
    have hpm : p ∈ w.patches := List.mem_of_find?_eq_some hp
    have hfp : findPatch w p.id = some p := findPatch_of_mem w p hi.1 hpm
    have hprops := hi.2 p.id p hfp
    have heq := sheep_feed_grown_eq w aid a p ha hp hg
    rw [heq] at hf
    injection hf with hf
    subst hf
    have hfpu : findPatch (updateAnimal w aid
        (fun b => { b with energy := b.energy + b.energyFromFood })) p.id = some p := hfp
    have hev := set_fully_grown_events_false _ p.id p hfpu
    have hpev : patchEvents ( set_fully_grown (updateAnimal w aid
          (fun b => { b with energy := b.energy + b.energyFromFood })) p.id false) p.id
        = [⟨w.time + p.grassRegrowthTime, p.id⟩] := by
      unfold patchEvents
      rw [hev, List.filter_append]
      have h1 : (updateAnimal w aid
          (fun b => { b with energy := b.energy + b.energyFromFood })).events.filter
            (fun e => decide (e.pid = p.id)) = [] := hprops.2.1 hg
      rw [h1]
      simp [updateAnimal_time]
    refine ⟨hpev, ?_⟩
    intro w2 hr
    have hw1t : ( set_fully_grown (updateAnimal w aid
        (fun b => { b with energy := b.energy + b.energyFromFood })) p.id false).time
        = w.time := by
      rw [set_fully_grown_time, updateAnimal_time]
    have htr : TracksEvent p.id (w.time + p.grassRegrowthTime)
        ( set_fully_grown (updateAnimal w aid
          (fun b => { b with energy := b.energy + b.energyFromFood })) p.id false) := by
      refine ⟨inv_feed w aid _ heq hi, ?_, ?_, hpev⟩
      · rw [hw1t]
        exact Nat.lt_add_of_pos_right hprops.1
      · exact ⟨{ p with fullyGrown := false },
          findPatch_set_fully_grown _ p.id false p hfpu, rfl⟩
    refine ⟨?_, ?_⟩
    · intro hlt
      exact (tracks_rtg p.id _ _ _ hr htr hlt).2.2.1
    · intro heqt
      have hlt : w2.time < w.time + p.grassRegrowthTime := by
        rw [← heqt]
        exact Nat.lt_succ_self _
      have ht2 := tracks_rtg p.id _ _ _ hr htr hlt
      rcases ht2.2.2.1 with ⟨q, hq, hqf⟩
      have hpe2 := ht2.2.2.2
      have hmem : (⟨w.time + p.grassRegrowthTime, p.id⟩ : Event) ∈ w2.events := by
        have h3 : (⟨w.time + p.grassRegrowthTime, p.id⟩ : Event) ∈ patchEvents w2 p.id := by
          rw [hpe2]
          exact List.mem_singleton_self _
        exact (List.mem_filter.mp h3).1
      refine ⟨{ q with fullyGrown := true }, ?_, rfl⟩
      exact fire_due_findPatch_due _ p.id q ⟨w.time + p.grassRegrowthTime, p.id⟩
        hq hmem rfl (Nat.le_of_eq heqt.symm)

/-- C10: the setter's scheduling side effect is unconditional on the prior
state: every assignment of `False` appends exactly one new regrowth event —
so a second `False` on an already-not-grown patch enqueues a second pending
event — while assigning `True` never schedules anything; the
at-most-one-pending invariant survives only because `Sheep.feed`, the sole
in-core caller, assigns `False` exclusively when the patch is fully
grown. -/
theorem fully_grown_setter_schedules (w : World) (pid : Nat) (p : GrassPatchState)
    (hp : findPatch w pid = some p) :
    (patchEvents ( set_fully_grown w pid false) pid
        = patchEvents w pid ++ [⟨w.time + p.grassRegrowthTime, pid⟩]) ∧
    (p.fullyGrown = false → ∀ e, patchEvents w pid = [e] →
      (patchEvents ( set_fully_grown w pid false) pid).length = 2) ∧
    (( set_fully_grown w pid true).events = w.events) ∧
    (∀ aid w1, Sheep.feed w aid = some w1 → w1.events ≠ w.events →
      ∃ a q, findAnimal w aid = some a ∧ findGrassAt w a.cell = some q ∧
        q.fullyGrown = true) := by
  have happend : patchEvents ( set_fully_grown w pid false) pid
      = patchEvents w pid ++ [⟨w.time + p.grassRegrowthTime, pid⟩] := by
    unfold patchEvents
    rw [set_fully_grown_events_false w pid p hp, List.filter_append]
    simp
  refine ⟨happend, ?_, set_fully_grown_events_true w pid, ?_⟩
  · intro hflag e he
    rw [happend, he]
    rfl
  · intro aid w1 hf hne
    rcases sheep_feed_cases w aid w1 hf with rfl | ⟨a, q, ha, hq, hgq, rfl⟩
    · exact absurd rfl hne
    · exact ⟨a, q, ha, hq, hgq⟩

/-- C9: the run is a deterministic function of the shared seeded random
source and the parameters: two runs over equal topologies, from equal
initial worlds, with equal random sources, produce identical per-tick
population-count sequences. -/
theorem run_deterministic (nb1 nb2 : Nat → List Nat) (w1 w2 : World) (r1 r2 : RNG)
    (n : Nat) (hnb : nb1 = nb2) (hw : w1 = w2) (hr : r1 = r2) :
    runCounts nb1 w1 r1 n = runCounts nb2 w2 r2 n := by
  subst hnb
  subst hw
  subst hr
  rfl

/-- Witness: `sheep_feed_spec` on the concrete grown-patch world. -/
theorem sheep_feed_spec_w :
    (cPatch.fullyGrown = true →
      Sheep.feed cW2 0 = some ( set_fully_grown
          (updateAnimal cW2 0 (fun b => { b with energy := b.energy + b.energyFromFood }))
          cPatch.id false) ∧
      ∃ w1, Sheep.feed cW2 0 = some w1 ∧
        findAnimal w1 0 = some { cSheep with energy := cSheep.energy + cSheep.energyFromFood } ∧
        findPatch w1 cPatch.id = some { cPatch with fullyGrown := false }) ∧
    (cPatch.fullyGrown = false → Sheep.feed cW2 0 = some cW2) :=
  sheep_feed_spec cW2 0 cSheep cPatch rfl rfl (by decide)

/-- Witness: one concrete step phase chain for the sheep of `cW2` (wolf on
the only neighbor cell, so the move stays put; the grown patch is eaten). -/
theorem animal_step_spec_w :
    Animal.step cnb0 cW2 cRng 0 = some (resolve cW4 cRng 0) ∧
    findAnimal (metabolize cW2 0) 0 = some { cSheep with energy := cSheep.energy - 1 } ∧
    (({ cSheep with energy := cSheep.energy - 1 + cSheep.energyFromFood } : AnimalState).energy < 0 →
      resolve cW4 cRng 0 = (Animal.remove cW4 0, cRng) ∧
      findAnimal (resolve cW4 cRng 0).1 0 = none ∧
      (resolve cW4 cRng 0).1.nextId = cW4.nextId ∧
      (resolve cW4 cRng 0).2 = cRng) ∧
    (¬ ({ cSheep with energy := cSheep.energy - 1 + cSheep.energyFromFood } : AnimalState).energy < 0 →
      (resolve cW4 cRng 0).2.fidx = cRng.fidx + 1 ∧
      (findAnimal (resolve cW4 cRng 0).1 0).isSome = true ∧
      (cRng.floats cRng.fidx < ({ cSheep with energy := cSheep.energy - 1 + cSheep.energyFromFood } : AnimalState).pReproduce →
        (resolve cW4 cRng 0).1 = Animal.spawn_offspring cW4 0 ∧
        (resolve cW4 cRng 0).1.animals.length = cW4.animals.length + 1) ∧
      (¬ cRng.floats cRng.fidx < ({ cSheep with energy := cSheep.energy - 1 + cSheep.energyFromFood } : AnimalState).pReproduce →
        (resolve cW4 cRng 0).1 = cW4)) :=
  animal_step_spec cnb0 cW2 cRng 0 cW2 cW4 cRng cRng cSheep
    { cSheep with energy := cSheep.energy - 1 + cSheep.energyFromFood } rfl rfl rfl rfl

/-- Witness: `wolf_feed_spec` on the concrete co-located wolf and sheep. -/
theorem wolf_feed_spec_w :
    (sheepAt cW2 cWolf.cell = [] → Wolf.feed cW2 cRng 1 = (cW2, cRng)) ∧
    (sheepAt cW2 cWolf.cell ≠ [] →
      ∃ s, s ∈ sheepAt cW2 cWolf.cell ∧ s.kind = AnimalKind.sheep ∧ s.cell = cWolf.cell ∧
        Wolf.feed cW2 cRng 1
          = (Animal.remove
              (updateAnimal cW2 1 (fun b => { b with energy := b.energy + b.energyFromFood }))
              s.id,
             (cRng.nextNat).2) ∧
        findAnimal (Wolf.feed cW2 cRng 1).1 1
          = some { cWolf with energy := cWolf.energy + cWolf.energyFromFood } ∧
        (∀ c b, b ∈ animalsAt (Wolf.feed cW2 cRng 1).1 c → b.id ≠ s.id) ∧
        (∀ c b, b ∈ sheepAt (Wolf.feed cW2 cRng 1).1 c → b.id ≠ s.id) ∧
        (∀ i (hi : i < (sheepAt cW2 cWolf.cell).length),
          (cRng.nats cRng.nidx) % (sheepAt cW2 cWolf.cell).length = i →
            s = (sheepAt cW2 cWolf.cell).get ⟨i, hi⟩)) ∧
    (∀ x, x ∈ sheepAt cW2 cWolf.cell → ∃ r0 : RNG, (Wolf.feed cW2 r0 1).1
        = Animal.remove
            (updateAnimal cW2 1 (fun b => { b with energy := b.energy + b.energyFromFood }))
            x.id) :=
  wolf_feed_spec cW2 cRng 1 cWolf rfl rfl (by decide)

/-- Witness: `sheep_move_spec` on the concrete triangle world. -/
theorem sheep_move_spec_w :
    (cellsWithoutWolves cnb cM cSheep.cell = [] → Sheep.move cnb cM cRng 0 = some (cM, cRng)) ∧
    (cellsWithoutWolves cnb cM cSheep.cell ≠ [] →
      ∃ c, c ∈ cellsWithoutWolves cnb cM cSheep.cell ∧ cellHasWolf cM c = false ∧
        Sheep.move cnb cM cRng 0
          = some (updateAnimal cM 0 (fun b => { b with cell := c }), (cRng.nextNat).2) ∧
        (cellsWithGrass cnb cM cSheep.cell ≠ [] → c ∈ cellsWithGrass cnb cM cSheep.cell ∧
          ∀ i (hi : i < (cellsWithGrass cnb cM cSheep.cell).length),
            (cRng.nats cRng.nidx) % (cellsWithGrass cnb cM cSheep.cell).length = i →
              c = (cellsWithGrass cnb cM cSheep.cell).get ⟨i, hi⟩) ∧
        (cellsWithGrass cnb cM cSheep.cell = [] →
          ∀ i (hi : i < (cellsWithoutWolves cnb cM cSheep.cell).length),
            (cRng.nats cRng.nidx) % (cellsWithoutWolves cnb cM cSheep.cell).length = i →
              c = (cellsWithoutWolves cnb cM cSheep.cell).get ⟨i, hi⟩)) ∧
    (∀ x, x ∈ cellsWithGrass cnb cM cSheep.cell ∨
        (cellsWithGrass cnb cM cSheep.cell = [] ∧ x ∈ cellsWithoutWolves cnb cM cSheep.cell) →
      ∃ r0 : RNG, Sheep.move cnb cM r0 0
        = some (updateAnimal cM 0 (fun b => { b with cell := x }), (r0.nextNat).2)) :=
  sheep_move_spec cnb cM cRng 0 cSheep rfl rfl

/-- Witness: `wolf_move_spec` on the concrete triangle world. -/
theorem wolf_move_spec_w :
    ∃ c, c ∈ cnb mWolf.cell ∧
      Wolf.move cnb cM cRng 1
        = some (updateAnimal cM 1 (fun b => { b with cell := c }), (cRng.nextNat).2) ∧
      (cellsWithSheep cnb cM mWolf.cell ≠ [] → c ∈ cellsWithSheep cnb cM mWolf.cell ∧
        ∀ i (hi : i < (cellsWithSheep cnb cM mWolf.cell).length),
          (cRng.nats cRng.nidx) % (cellsWithSheep cnb cM mWolf.cell).length = i →
            c = (cellsWithSheep cnb cM mWolf.cell).get ⟨i, hi⟩) ∧
      (cellsWithSheep cnb cM mWolf.cell = [] →
        ∀ i (hi : i < (cnb mWolf.cell).length),
          (cRng.nats cRng.nidx) % (cnb mWolf.cell).length = i →
            c = (cnb mWolf.cell).get ⟨i, hi⟩) ∧
      (∀ x, x ∈ cellsWithSheep cnb cM mWolf.cell ∨
          (cellsWithSheep cnb cM mWolf.cell = [] ∧ x ∈ cnb mWolf.cell) →
        ∃ r0 : RNG, Wolf.move cnb cM r0 1
          = some (updateAnimal cM 1 (fun b => { b with cell := x }), (r0.nextNat).2)) :=
  wolf_move_spec cnb cM cRng 1 mWolf rfl rfl (by decide)

/-- Witness: `sheep_feed_missing_patch` on a world without grass. -/
theorem sheep_feed_missing_patch_w :
    (findGrassAt cW3 cSheep.cell = none → Sheep.feed cW3 0 = none) ∧
    ((∀ b, b ∈ cW3.animals → b.kind = AnimalKind.sheep → findGrassAt cW3 b.cell ≠ none) →
      (Sheep.feed cW3 0).isSome = true) :=
  sheep_feed_missing_patch cW3 0 cSheep rfl rfl

/-- The empty world satisfies the grass invariant. -/
theorem inv_gW : Inv gW :=
  ⟨by decide, fun pid p hp => Option.noConfusion hp⟩

/-- The one-patch world `gF` satisfies the grass invariant. -/
theorem inv_gF : Inv gF := by
  refine ⟨by decide, ?_⟩
  intro pid p hp
  have hp2 : ([gPatch].find? (fun q => decide (q.id = pid))) = some p := hp
  by_cases h : gPatch.id = pid
  · have hdec : decide (gPatch.id = pid) = true := decide_eq_true h
    simp only [List.find?, hdec] at hp2
    injection hp2 with hp2
    subst hp2
    exact ⟨by decide, fun _ => rfl, fun hc => by simp [gPatch] at hc⟩
  · have hdec : decide (gPatch.id = pid) = false := by simpa using h
    simp only [List.find?, hdec] at hp2
    exact Option.noConfusion hp2

/-- Witness: the grass automaton on concrete worlds — creation with
countdown 2, invariant establishment, and the event scheduled by a concrete
consumption. -/
theorem grass_regrowth_automaton_w :
    findPatch (GrassPatch.create gW 2 3 0) gW.nextId
        = some ⟨gW.nextId, decide ((2 : Nat) = 0), 3, 0⟩ ∧
    Inv (GrassPatch.create gW 2 3 0) ∧
    patchEvents gW1 gPatch.id = [⟨gF.time + gPatch.grassRegrowthTime, gPatch.id⟩] :=
  ⟨(grass_regrowth_automaton.1 gW 2 3 0 rfl rfl).1,
   grass_regrowth_automaton.2.1 gW 2 3 0 inv_gW (by decide) rfl rfl,
   (grass_regrowth_automaton.2.2.2 gF 0 gW1 cSheep gPatch inv_gF rfl rfl rfl rfl).1⟩

/-- Witness: the setter's unconditional scheduling on a concrete not-grown
patch that already has a pending event. -/
theorem fully_grown_setter_schedules_w :
    (patchEvents ( set_fully_grown cW5 2 false) 2
        = patchEvents cW5 2
          ++ [⟨cW5.time + ({ cPatch with fullyGrown := false } : GrassPatchState).grassRegrowthTime, 2⟩]) ∧
    (({ cPatch with fullyGrown := false } : GrassPatchState).fullyGrown = false →
      ∀ e, patchEvents cW5 2 = [e] →
      (patchEvents ( set_fully_grown cW5 2 false) 2).length = 2) ∧
    (( set_fully_grown cW5 2 true).events = cW5.events) ∧
    (∀ aid w1, Sheep.feed cW5 aid = some w1 → w1.events ≠ cW5.events →
      ∃ a q, findAnimal cW5 aid = some a ∧ findGrassAt cW5 a.cell = some q ∧
        q.fullyGrown = true) :=
  fully_grown_setter_schedules cW5 2 { cPatch with fullyGrown := false } rfl

/-- Witness: determinism of a concrete 3-tick run. -/
theorem run_deterministic_w :
    runCounts cnb0 cW2 cRng 3 = runCounts cnb0 cW2 cRng 3 :=
  run_deterministic cnb0 cnb0 cW2 cW2 cRng cRng 3 rfl rfl rfl

end WolfSheep
